import Mathlib

/-!
# Verification of the mssql-mcp-server pagination and streaming-aggregation engine

This file is a shallow embedding, in Lean 4, of the cursor-based pagination
and streaming-aggregation core of the `mssql-mcp-server` repository:

* `Lib/pagination.mjs` — `paginateQuery`, `generateNextCursor`,
  `generatePrevCursor`, `decodeCursor`, `extractDefaultCursorField`;
* the tool handlers `registerExecuteQueryTool`, `registerPaginatedQueryTool`
  and `registerQueryStreamerTool` (their SQL-validation guard, the pagination
  metadata they build, and the streaming batch loop with its aggregation
  accumulators).

Modelling conventions:

* JavaScript row/parameter scalars are embedded as `Jval`
  (null, boolean, integer number, string).  JavaScript floating-point
  numbers are modelled exactly: row scalars as integers, aggregation
  accumulators as rationals (so the `avg` division is exact rather than
  IEEE-754 rounded).
* JavaScript objects used as maps (query parameters, the string-keyed
  aggregation accumulator object) are association lists that preserve
  insertion order, with assignment replacing in place.
* `Buffer.from(s).toString('base64')` and `Buffer.from(tok, 'base64')` are
  embedded as explicit UTF-8 and base64 codecs on byte lists.  The decoders
  are strict: ill-formed base64/UTF-8 input is rejected (`none`) where
  node.js would silently substitute or truncate; both behaviours make the
  ill-formed token unusable as a cursor, which is the only way the result
  is consumed.
* `JSON.stringify`/`JSON.parse` are embedded for the JSON fragment the
  cursor codec actually exercises: scalars and flat records of scalars
  (that is the exact codomain of the cursor printer).
* The external execution port (`executeQuery`) is abstracted as the sequence
  of row batches it returns: a function `Nat → List Row` giving the rows of
  the i-th fetch of a streaming run.
-/

namespace Mcp

/-- A JavaScript scalar value as it occurs in rows, query parameters and
JSON cursor payloads: `null`, a boolean, a (numeric) value — embedded as an
integer — or a string. -/
inductive Jval where
  | jnull : Jval
  | jbool : Bool → Jval
  | jnum : Int → Jval
  | jstr : String → Jval
deriving DecidableEq, Repr

/-- A result row: a JavaScript object, i.e. an insertion-ordered association
list from column names to scalar values. -/
abbrev Row := List (String × Jval)

/-- Query parameters: a JavaScript object from parameter names to scalars. -/
abbrev Params := List (String × Jval)

/-! ## String helpers (JavaScript string primitives used by the source)

All operations are defined on `List Char`/`String.data` so that they reduce
inside the kernel (`decide`). -/

/-- JavaScript `\s` / `trim` whitespace, restricted to the ASCII whitespace
characters that occur in SQL text. -/
def isWsChar (c : Char) : Bool :=
  c = ' ' || c = '\t' || c = '\n' || c = '\r' || c = Char.ofNat 11 || c = Char.ofNat 12

/-- JavaScript `\w` (regex word character): ASCII letters, digits, `_`. -/
def isWordChar (c : Char) : Bool :=
  c.isAlphanum || c = '_'

/-- `String.prototype.toLowerCase`, on the ASCII range (the only range the
source's keyword checks rely on). -/
def lowerStr (s : String) : String :=
  ⟨s.data.map Char.toLower⟩

/-- `String.prototype.trim` (both ends). -/
def trimStr (s : String) : String :=
  ⟨((s.data.dropWhile isWsChar).reverse.dropWhile isWsChar).reverse⟩

/-- `String.prototype.includes` on character lists: `needle` occurs
contiguously inside `hay`. -/
def containsList (hay needle : List Char) : Bool :=
  decide (needle <:+: hay)

/-- `String.prototype.includes`. -/
def strIncludes (hay needle : String) : Bool :=
  containsList hay.data needle.data

/-- JavaScript object property access `obj[k]`: the value stored under the
first matching key, `none` for an absent property (`undefined`). -/
def jlookup {α : Type} : List (String × α) → String → Option α
  | [], _ => none
  | (k', v') :: rest, k => if k' = k then some v' else jlookup rest k

/-! ## The streaming-aggregation engine (`registerQueryStreamerTool`)

The handler's batch loop, its string-keyed accumulator object
`aggregationResults` and the final aggregation pass are embedded directly.
The execution port is abstracted as the sequence of batches it returns
(`fetch : Nat → List Row`); the cursor/SQL plumbing that produces each batch
does not influence the accumulator or the loop counters, which is what the
claims are about. -/

/-- One entry of the `aggregations` argument: `{ field, operation }`. -/
inductive AggOp where
  | sum | avg | min | max | count | countDistinct
deriving DecidableEq, Repr

/-- The string used for the operation in accumulator keys
`${operation}:${field}`. -/
def AggOp.str : AggOp → String
  | .sum => "sum"
  | .avg => "avg"
  | .min => "min"
  | .max => "max"
  | .count => "count"
  | .countDistinct => "countDistinct"

/-- One aggregation specification `{ field, operation }`. -/
structure AggSpec where
  field : String
  operation : AggOp
deriving DecidableEq, Repr

/-- The accumulator key `${operation}:${field}`. -/
def aggKey (spec : AggSpec) : String :=
  spec.operation.str ++ ":" ++ spec.field

/-- A value stored in the `aggregationResults` object: a number (modelled as
an exact rational) or, for `countDistinct`, the `Set` of observed values
(modelled as a duplicate-free, insertion-ordered list). -/
inductive AggVal where
  | qnum : ℚ → AggVal
  | vset : List Jval → AggVal
deriving DecidableEq, Repr

/-- The accumulator object `aggregationResults`. -/
abbrev AggMap := List (String × AggVal)

/-- JavaScript object property assignment `m[k] = v`: replace in place if
present, append otherwise. -/
def setKey : List (String × AggVal) → String → AggVal → List (String × AggVal)
  | [], k, v => [(k, v)]
  | (k', v') :: rest, k, v =>
    if k' = k then (k', v) :: rest else (k', v') :: setKey rest k v

/-- `Number.MAX_VALUE` (an exact integer), the `min` accumulator's initial
value in the source. -/
def numberMaxValue : ℚ := 2 ^ 1024 - 2 ^ 971

/-- `Number.MIN_VALUE` (the smallest positive double, `2^-1074`), the `max`
accumulator's initial value in the source. -/
def numberMinValue : ℚ := 1 / 2 ^ 1074

/-- The initial value assigned to `aggregationResults[key]` for a spec. -/
def initAggVal (spec : AggSpec) : AggVal :=
  match spec.operation with
  | .sum => .qnum 0
  | .avg => .qnum 0
  | .min => .qnum numberMaxValue
  | .max => .qnum numberMinValue
  | .count => .qnum 0
  | .countDistinct => .vset []

/-- The initialisation pass over `aggregations` that populates
`aggregationResults` before the loop starts. -/
def initAgg (aggs : List AggSpec) : AggMap :=
  aggs.foldl (fun m spec => setKey m (aggKey spec) (initAggVal spec)) []

/-- Processing of one row for one aggregation spec (the body of the inner
`aggregations.forEach` of the batch loop).  Values that are `null` or absent
(`undefined`) are skipped; `sum`/`avg`/`min`/`max` additionally require a
numeric value (`typeof value === 'number'`).  The fall-through cases where
the accumulator key is missing or has the wrong shape cannot arise after
`initAgg` over the same spec list (in JavaScript they would poison the
accumulator with `NaN`); they are modelled as no-ops. -/
def applySpec (row : Row) (m : AggMap) (spec : AggSpec) : AggMap :=
  match jlookup row spec.field with
  | none => m
  | some .jnull => m
  | some v =>
    match spec.operation with
    | .sum =>
      match v, jlookup m (aggKey spec) with
      | .jnum n, some (.qnum q) => setKey m (aggKey spec) (.qnum (q + (n : ℚ)))
      | _, _ => m
    | .avg =>
      match v, jlookup m (aggKey spec) with
      | .jnum n, some (.qnum q) => setKey m (aggKey spec) (.qnum (q + (n : ℚ)))
      | _, _ => m
    | .min =>
      match v, jlookup m (aggKey spec) with
      | .jnum n, some (.qnum q) =>
        if (n : ℚ) < q then setKey m (aggKey spec) (.qnum (n : ℚ)) else m
      | _, _ => m
    | .max =>
      match v, jlookup m (aggKey spec) with
      | .jnum n, some (.qnum q) =>
        if q < (n : ℚ) then setKey m (aggKey spec) (.qnum (n : ℚ)) else m
      | _, _ => m
    | .count =>
      match jlookup m (aggKey spec) with
      | some (.qnum q) => setKey m (aggKey spec) (.qnum (q + 1))
      | _ => m
    | .countDistinct =>
      match jlookup m (aggKey spec) with
      | some (.vset vs) => setKey m (aggKey spec) (.vset (if v ∈ vs then vs else vs ++ [v]))
      | _ => m

/-- Processing of one row for every aggregation spec. -/
def processRow (aggs : List AggSpec) (m : AggMap) (row : Row) : AggMap :=
  aggs.foldl (applySpec row) m

/-- Processing of a whole batch (`batchRows.forEach`). -/
def processBatch (aggs : List AggSpec) (m : AggMap) (rows : List Row) : AggMap :=
  rows.foldl (processRow aggs) m

/-- The mutable state of the streaming loop that the claims are about. -/
structure StreamState where
  totalProcessedRows : Nat
  batchCount : Nat
  aggregationResults : AggMap
deriving DecidableEq, Repr

/-- One-to-one embedding of the streaming `while` loop:

```
while (hasMore && totalProcessedRows < maxRows) {
    batchCount++;
    ... execute batch ...
    totalProcessedRows += batchRowCount;
    hasMore = batchRowCount >= batchSize && totalProcessedRows < maxRows;
    if (batchRowCount > 0) { ... process aggregations ... }
    if (batchRowCount < batchSize) { hasMore = false; }
}
```

`fetch i` abstracts the rows returned by the i-th batch execution.  The
`fuel` argument is only there to make the recursion structural; the
termination theorem shows `maxRows + 1` fuel always suffices. -/
def streamLoop (fetch : Nat → List Row) (batchSize maxRows : Nat)
    (aggs : List AggSpec) : Nat → StreamState → Bool → Option StreamState
  | 0, _, _ => none
  | fuel + 1, s, hasMore =>
    if hasMore ∧ s.totalProcessedRows < maxRows then
      let batchRows := fetch s.batchCount
      let batchRowCount := batchRows.length
      let total' := s.totalProcessedRows + batchRowCount
      let agg' :=
        if 0 < batchRowCount then processBatch aggs s.aggregationResults batchRows
        else s.aggregationResults
      streamLoop fetch batchSize maxRows aggs fuel
        ⟨total', s.batchCount + 1, agg'⟩
        (decide (batchSize ≤ batchRowCount) && decide (total' < maxRows))
    else some s

/-- The divisor used to finalise an `avg` accumulator:
`aggregationResults[`count:${field}`] || totalProcessedRows` — the count
accumulator for the same field when present and non-zero (zero is falsy in
JavaScript), the total number of processed rows otherwise. -/
def avgDivisor (totalProcessedRows : Nat) (m : AggMap) (f : String) : ℚ :=
  match jlookup m ("count:" ++ f) with
  | some (.qnum c) => if c = 0 then (totalProcessedRows : ℚ) else c
  | _ => (totalProcessedRows : ℚ)

/-- One step of the post-loop finalisation pass: `avg` becomes
`sum / avgDivisor` (division skipped unless the divisor is positive),
`countDistinct` becomes the set's size, everything else is untouched. -/
def finalizeStep (totalProcessedRows : Nat) (m : AggMap) (spec : AggSpec) : AggMap :=
  match spec.operation with
  | .avg =>
    if 0 < avgDivisor totalProcessedRows m spec.field then
      match jlookup m (aggKey spec) with
      | some (.qnum q) =>
        setKey m (aggKey spec) (.qnum (q / avgDivisor totalProcessedRows m spec.field))
      | _ => m
    else m
  | .countDistinct =>
    match jlookup m (aggKey spec) with
    | some (.vset vs) => setKey m (aggKey spec) (.qnum (vs.length : ℚ))
    | _ => m
  | _ => m

/-- The post-loop aggregation finalisation pass (`aggregations.forEach` after
the loop). -/
def finalizeAggs (aggs : List AggSpec) (totalProcessedRows : Nat) (m : AggMap) : AggMap :=
  aggs.foldl (finalizeStep totalProcessedRows) m

/-- A whole streaming-aggregation run: initialise the accumulators, run the
batch loop from the initial state (`totalProcessedRows = 0`,
`batchCount = 0`, `hasMore = true`), finalise.  Returns
`(totalProcessedRows, batchCount, finalised aggregationResults)`. -/
def streamRun (fetch : Nat → List Row) (batchSize maxRows : Nat)
    (aggs : List AggSpec) : Option (Nat × Nat × AggMap) :=
  (streamLoop fetch batchSize maxRows aggs (maxRows + 1) ⟨0, 0, initAgg aggs⟩ true).map
    (fun s => (s.totalProcessedRows, s.batchCount,
      finalizeAggs aggs s.totalProcessedRows s.aggregationResults))

/-- The rows processed by a run that executed `k` batches starting at batch
index `i`: the concatenation of the fetched batches. -/
def batchesJoin (fetch : Nat → List Row) (i k : Nat) : List Row :=
  ((List.range' i k).map fetch).flatten

/-- The numeric contribution of one row to a field's sum (0 when the field
is absent, null or non-numeric). -/
def rowNumVal (row : Row) (f : String) : ℚ :=
  match jlookup row f with
  | some (.jnum n) => (n : ℚ)
  | _ => 0

/-- The sum of a field's non-null numeric values over a list of rows. -/
def sumField (rows : List Row) (f : String) : ℚ :=
  (rows.map (fun row => rowNumVal row f)).sum

/-- The count of a field's non-null (and non-absent) values over rows. -/
def countField (rows : List Row) (f : String) : Nat :=
  (rows.filter (fun row =>
    match jlookup row f with
    | none => false
    | some .jnull => false
    | some _ => true)).length

/-! ## The cursor codec (`generateNextCursor` / `generatePrevCursor` /
`decodeCursor`)

`Buffer.from(JSON.stringify(cursor)).toString('base64')` and
`JSON.parse(Buffer.from(cursor, 'base64').toString('utf8'))` are embedded as
an explicit JSON printer/parser (for scalars and flat records of scalars,
the JSON fragment cursors use; numbers are embedded as integers),
a UTF-8 codec and a base64 codec. -/

/-- A lowercase hexadecimal digit (as emitted by `JSON.stringify` in
`\u00xx` escapes). -/
def hexDigitChar (n : Nat) : Char :=
  if n < 10 then Char.ofNat (48 + n) else Char.ofNat (87 + n)

/-- The value of a hexadecimal digit (JSON `\uXXXX` accepts both cases). -/
def hexDigitVal (c : Char) : Option Nat :=
  if '0' ≤ c ∧ c ≤ '9' then some (c.toNat - 48)
  else if 'a' ≤ c ∧ c ≤ 'f' then some (c.toNat - 87)
  else if 'A' ≤ c ∧ c ≤ 'F' then some (c.toNat - 55)
  else none

/-- `JSON.stringify` string escaping of one character: `"` and `\` get a
backslash, the named control escapes are used for 8/9/10/12/13, all other
control characters become `\u00xx`, everything else is emitted verbatim. -/
def escapeChar (c : Char) : List Char :=
  if c = '"' then ['\\', '"']
  else if c = '\\' then ['\\', '\\']
  else if c = Char.ofNat 8 then ['\\', 'b']
  else if c = Char.ofNat 9 then ['\\', 't']
  else if c = Char.ofNat 10 then ['\\', 'n']
  else if c = Char.ofNat 12 then ['\\', 'f']
  else if c = Char.ofNat 13 then ['\\', 'r']
  else if c.toNat < 32 then
    ['\\', 'u', '0', '0', hexDigitChar (c.toNat / 16), hexDigitChar (c.toNat % 16)]
  else [c]

/-- `JSON.stringify` of a string, as a character list. -/
def printJString (s : String) : List Char :=
  '"' :: (s.data.flatMap escapeChar ++ ['"'])

/-- The decimal digit character for `n < 10`. -/
def digitChar (n : Nat) : Char := Char.ofNat (48 + n)

/-- Decimal digits of a natural number (most significant first); the fuel is
structural only, `n + 1` always suffices. -/
def natDigsGo : Nat → Nat → List Char
  | 0, _ => []
  | fuel + 1, n =>
    if n < 10 then [digitChar n] else natDigsGo fuel (n / 10) ++ [digitChar (n % 10)]

/-- The decimal notation of a natural number (JavaScript `String(n)`). -/
def natDigs (n : Nat) : List Char := natDigsGo (n + 1) n

/-- The decimal notation of an integer (JavaScript `String(i)`). -/
def intDigs (i : Int) : List Char :=
  if i < 0 then '-' :: natDigs (-i).toNat else natDigs i.toNat

/-- `JSON.stringify` of a scalar value. -/
def printJval : Jval → List Char
  | .jnull => ['n', 'u', 'l', 'l']
  | .jbool true => ['t', 'r', 'u', 'e']
  | .jbool false => ['f', 'a', 'l', 's', 'e']
  | .jnum i => intDigs i
  | .jstr s => printJString s

/-- `JSON.stringify({field, value, operator})` with the insertion order the
cursor generators use. -/
def printCursorObj (f : String) (v : Jval) (op : String) : List Char :=
  '\x7b' :: (printJString "field" ++ ':' :: printJval (.jstr f) ++
    ',' :: printJString "value" ++ ':' :: printJval v ++
    ',' :: printJString "operator" ++ ':' :: printJval (.jstr op) ++ ['\x7d'])

/-- JSON string-body parser (input starts after the opening quote; returns
the decoded characters and the rest after the closing quote).  Surrogate
`\u` escapes are rejected: Lean characters are Unicode scalar values and the
printer never emits them. -/
def parseJStringAux : List Char → Option (List Char × List Char)
  | [] => none
  | c :: rest =>
    if c = '"' then some ([], rest)
    else if c = '\\' then
      match rest with
      | [] => none
      | e :: rest2 =>
        if e = '"' then (parseJStringAux rest2).map (fun p => ('"' :: p.1, p.2))
        else if e = '\\' then (parseJStringAux rest2).map (fun p => ('\\' :: p.1, p.2))
        else if e = '/' then (parseJStringAux rest2).map (fun p => ('/' :: p.1, p.2))
        else if e = 'b' then (parseJStringAux rest2).map (fun p => (Char.ofNat 8 :: p.1, p.2))
        else if e = 't' then (parseJStringAux rest2).map (fun p => (Char.ofNat 9 :: p.1, p.2))
        else if e = 'n' then (parseJStringAux rest2).map (fun p => (Char.ofNat 10 :: p.1, p.2))
        else if e = 'f' then (parseJStringAux rest2).map (fun p => (Char.ofNat 12 :: p.1, p.2))
        else if e = 'r' then (parseJStringAux rest2).map (fun p => (Char.ofNat 13 :: p.1, p.2))
        else if e = 'u' then
          match rest2 with
          | h1 :: h2 :: h3 :: h4 :: rest3 =>
            match hexDigitVal h1, hexDigitVal h2, hexDigitVal h3, hexDigitVal h4 with
            | some a, some b, some c3, some d =>
              if a * 4096 + b * 256 + c3 * 16 + d < 55296 ∨
                  57343 < a * 4096 + b * 256 + c3 * 16 + d then
                (parseJStringAux rest3).map
                  (fun p => (Char.ofNat (a * 4096 + b * 256 + c3 * 16 + d) :: p.1, p.2))
              else none
            | _, _, _, _ => none
          | _ => none
        else none
    else if c.toNat < 32 then none
    else (parseJStringAux rest).map (fun p => (c :: p.1, p.2))

/-- Is `c` an ASCII decimal digit? -/
def isDigitCh (c : Char) : Bool := decide ('0' ≤ c) && decide (c ≤ '9')

/-- Accumulate decimal digits (stops at the first non-digit). -/
def parseNatAux : Nat → List Char → Nat × List Char
  | acc, [] => (acc, [])
  | acc, c :: rest =>
    if isDigitCh c then parseNatAux (acc * 10 + (c.toNat - 48)) rest else (acc, c :: rest)

/-- Parse a JSON natural-number literal (no leading zeros). -/
def parseDigitsStrict (cs : List Char) : Option (Nat × List Char) :=
  match cs with
  | [] => none
  | c :: rest =>
    if isDigitCh c then
      if c = '0' then
        match rest with
        | c2 :: _ => if isDigitCh c2 then none else some (0, rest)
        | [] => some (0, [])
      else some (parseNatAux (c.toNat - 48) rest)
    else none

/-- Parse a JSON integer literal (the numeric fragment cursors use). -/
def parseNumber (cs : List Char) : Option (Int × List Char) :=
  match cs with
  | '-' :: rest => (parseDigitsStrict rest).map (fun p => (-(p.1 : Int), p.2))
  | _ => (parseDigitsStrict cs).map (fun p => ((p.1 : Int), p.2))

/-- Parse one JSON scalar value. -/
def parseJval (cs : List Char) : Option (Jval × List Char) :=
  if cs.take 4 = ['n', 'u', 'l', 'l'] then some (.jnull, cs.drop 4)
  else if cs.take 4 = ['t', 'r', 'u', 'e'] then some (.jbool true, cs.drop 4)
  else if cs.take 5 = ['f', 'a', 'l', 's', 'e'] then some (.jbool false, cs.drop 5)
  else if cs.take 1 = ['"'] then
    (parseJStringAux (cs.drop 1)).map (fun p => (.jstr ⟨p.1⟩, p.2))
  else (parseNumber cs).map (fun p => (.jnum p.1, p.2))

/-- Parse the members of a JSON record of scalars (after the opening brace,
first member next); the fuel is structural only, `length + 1` suffices. -/
def parseMembers : Nat → List Char → Option (List (String × Jval) × List Char)
  | 0, _ => none
  | fuel + 1, cs =>
    if cs.take 1 = ['"'] then
      match parseJStringAux (cs.drop 1) with
      | none => none
      | some (key, rest2) =>
        if rest2.take 1 = [':'] then
          match parseJval (rest2.drop 1) with
          | none => none
          | some (v, rest4) =>
            if rest4.take 1 = [','] then
              (parseMembers fuel (rest4.drop 1)).map (fun p => ((⟨key⟩, v) :: p.1, p.2))
            else if rest4.take 1 = ['\x7d'] then some ([(⟨key⟩, v)], rest4.drop 1)
            else none
        else none
    else none

/-- Parse a JSON record body (after the opening brace). -/
def parseRecord (cs : List Char) : Option (List (String × Jval) × List Char) :=
  if cs.take 1 = ['\x7d'] then some ([], cs.drop 1)
  else parseMembers (cs.length + 1) cs

/-- The result of `JSON.parse` on the JSON fragment the cursor codec uses:
a scalar, or a flat record of scalars. -/
inductive Json where
  | scalar : Jval → Json
  | record : List (String × Jval) → Json
deriving DecidableEq, Repr

/-- `JSON.parse`, on the fragment the encoder emits (whitespace-free flat
records of scalars, no duplicate keys): the whole input must be consumed.
Strict: whitespace, non-integer numbers and nested values — which
`JSON.parse` itself accepts — are rejected; the round-trip claim only
needs the encoder's image, and the pagination rewrite abstracts the whole
decode step as an oracle instead of relying on this parser. -/
def parseJsonTop (cs : List Char) : Option Json :=
  if cs.take 1 = ['\x7b'] then
    match parseRecord (cs.drop 1) with
    | none => none
    | some p => if p.2 = [] then some (.record p.1) else none
  else
    match parseJval cs with
    | none => none
    | some p => if p.2 = [] then some (.scalar p.1) else none

/-- UTF-8 encoding of one Unicode scalar value. -/
def utf8EncChar (c : Char) : List Nat :=
  if c.toNat < 128 then [c.toNat]
  else if c.toNat < 2048 then [192 + c.toNat / 64, 128 + c.toNat % 64]
  else if c.toNat < 65536 then
    [224 + c.toNat / 4096, 128 + c.toNat / 64 % 64, 128 + c.toNat % 64]
  else
    [240 + c.toNat / 262144, 128 + c.toNat / 4096 % 64, 128 + c.toNat / 64 % 64,
      128 + c.toNat % 64]

/-- UTF-8 encoding of a character sequence (`Buffer.from(s)`). -/
def utf8Encode (cs : List Char) : List Nat := cs.flatMap utf8EncChar

/-- UTF-8 decoding of one character (`buffer.toString('utf8')`, one step).
Strict: ill-formed, overlong or surrogate sequences are rejected where
node.js would substitute U+FFFD; exact on the well-formed byte sequences
the encoder emits, which is all the round-trip claim needs. -/
def utf8DecodeChar : List Nat → Option (Char × List Nat)
  | [] => none
  | b :: rest =>
    if b < 128 then some (Char.ofNat b, rest)
    else if b < 192 then none
    else if b < 224 then
      match rest with
      | b2 :: rest2 =>
        if 128 ≤ b2 ∧ b2 < 192 then
          if 128 ≤ (b - 192) * 64 + (b2 - 128) then
            some (Char.ofNat ((b - 192) * 64 + (b2 - 128)), rest2)
          else none
        else none
      | [] => none
    else if b < 240 then
      match rest with
      | b2 :: b3 :: rest2 =>
        if 128 ≤ b2 ∧ b2 < 192 ∧ 128 ≤ b3 ∧ b3 < 192 then
          if 2048 ≤ (b - 224) * 4096 + (b2 - 128) * 64 + (b3 - 128) ∧
              ((b - 224) * 4096 + (b2 - 128) * 64 + (b3 - 128) < 55296 ∨
                57343 < (b - 224) * 4096 + (b2 - 128) * 64 + (b3 - 128)) then
            some (Char.ofNat ((b - 224) * 4096 + (b2 - 128) * 64 + (b3 - 128)), rest2)
          else none
        else none
      | _ => none
    else if b < 248 then
      match rest with
      | b2 :: b3 :: b4 :: rest2 =>
        if 128 ≤ b2 ∧ b2 < 192 ∧ 128 ≤ b3 ∧ b3 < 192 ∧ 128 ≤ b4 ∧ b4 < 192 then
          if 65536 ≤ (b - 240) * 262144 + (b2 - 128) * 4096 + (b3 - 128) * 64 + (b4 - 128) ∧
              (b - 240) * 262144 + (b2 - 128) * 4096 + (b3 - 128) * 64 + (b4 - 128) <
                1114112 then
            some (Char.ofNat
              ((b - 240) * 262144 + (b2 - 128) * 4096 + (b3 - 128) * 64 + (b4 - 128)), rest2)
          else none
        else none
      | _ => none
    else none

/-- UTF-8 decoding loop; the fuel is structural only, each decoded character
consumes at least one byte so the byte count always suffices. -/
def utf8DecodeGo : Nat → List Nat → Option (List Char)
  | _, [] => some []
  | 0, _ :: _ => none
  | fuel + 1, b :: rest =>
    match utf8DecodeChar (b :: rest) with
    | none => none
    | some (c, rest2) => (utf8DecodeGo fuel rest2).map (fun cs => c :: cs)

/-- UTF-8 decoding (`buffer.toString('utf8')`). -/
def utf8Decode (bs : List Nat) : Option (List Char) :=
  utf8DecodeGo bs.length bs

/-- The base64 alphabet used by `Buffer.toString('base64')`. -/
def base64Chars : List Char :=
  "ABCDEFGHIJKLMNOPQRSTUVWXYZabcdefghijklmnopqrstuvwxyz0123456789+/".data

/-- The character of a 6-bit group. -/
def b64Char (n : Nat) : Char := base64Chars.getD n 'A'

/-- The 6-bit group of a base64 character (`none` for a non-alphabet
character, including `=`). -/
def b64Val (c : Char) : Option Nat := base64Chars.findIdx? (· = c)

/-- Standard base64 encoding with padding (`Buffer.toString('base64')`). -/
def base64Encode : List Nat → List Char
  | [] => []
  | [a] => [b64Char (a / 4), b64Char (a % 4 * 16), '=', '=']
  | [a, b] => [b64Char (a / 4), b64Char (a % 4 * 16 + b / 16), b64Char (b % 16 * 4), '=']
  | a :: b :: c :: rest =>
    b64Char (a / 4) :: b64Char (a % 4 * 16 + b / 16) :: b64Char (b % 16 * 4 + c / 64) ::
      b64Char (c % 64) :: base64Encode rest

/-- Base64 decoding (`Buffer.from(tok, 'base64')`).  Strict: input must be
padded groups of four alphabet characters, exactly the form the encoder
emits — node.js is lenient (it skips whitespace and accepts unpadded
input), so this stage is only meaningful on the encoder's image, which is
all the round-trip claim needs; the pagination rewrite abstracts the
decode step as an oracle instead of relying on it. -/
def base64Decode : List Char → Option (List Nat)
  | [] => some []
  | c1 :: c2 :: c3 :: c4 :: rest =>
    match b64Val c1, b64Val c2 with
    | some s1, some s2 =>
      if c3 = '=' then
        if c4 = '=' ∧ rest = [] then some [s1 * 4 + s2 / 16] else none
      else
        match b64Val c3 with
        | some s3 =>
          if c4 = '=' then
            if rest = [] then some [s1 * 4 + s2 / 16, s2 % 16 * 16 + s3 / 4] else none
          else
            match b64Val c4 with
            | some s4 =>
              (base64Decode rest).map
                (fun bs => (s1 * 4 + s2 / 16) :: (s2 % 16 * 16 + s3 / 4) ::
                  (s3 % 4 * 64 + s4) :: bs)
            | none => none
        | none => none
    | _, _ => none
  | _ => none

/-- `generateNextCursor`/`generatePrevCursor`'s encoding step:
`Buffer.from(JSON.stringify({field, value, operator})).toString('base64')`. -/
def encodeCursorToken (f : String) (v : Jval) (op : String) : String :=
  ⟨base64Encode (utf8Encode (printCursorObj f v op))⟩

/-- The decoding step
`JSON.parse(Buffer.from(cursor, 'base64').toString('utf8'))` composed
from the strict stages above, `none` when any stage rejects.  On the image
of `encodeCursorToken` — canonical padded base64 of whitespace-free flat
scalar records, the only tokens the program itself produces — it agrees
with node's decoding; this strict composite underlies the round-trip
claim, while the pagination rewrite below abstracts the decode step as an
oracle over all behaviours instead of committing to this one. -/
def decodeCursorJson (tok : String) : Option Json :=
  match base64Decode tok.data with
  | none => none
  | some bytes =>
    match utf8Decode bytes with
    | none => none
    | some chars => parseJsonTop chars

/-- The parse position may safely stop here: end of input or a non-digit. -/
def nonDigitStart (cs : List Char) : Prop :=
  cs = [] ∨ ∃ c t, cs = c :: t ∧ isDigitCh c = false

/-! ## The pagination rewrite (`paginateQuery`) and the tool handlers

`paginateQuery` (src/Lib/pagination.mjs, lines 14–101) is embedded over
`List Char`.  The one regex whose result feeds later computation only when
the statement already has an `ORDER BY` clause — the clause-extraction
regex of lines 36–45 — is abstracted as an oracle argument `extractField`
(`some f` meaning the match succeeded and the first ordered field computed
from the captured clause is `f`); every theorem below is proved for every
oracle, so nothing depends on its behaviour.  Likewise the count-query
rewrite of `registerPaginatedQueryTool` is an oracle `countT`, and the
runtime decode step of line 64,
`JSON.parse(Buffer.from(cursor, 'base64').toString('utf8'))`, is an oracle
`dec : String → Option Json` (node's base64/UTF-8 decoding is lenient in
ways the strict codec above does not capture, so the rewrite is proved for
every decode behaviour; `paginateQuery` itself is the instance at the
strict codec `decodeCursorJson`).  The reading of `dec tok`: `none` means
the expression threw, or produced `null` so the destructuring of line 65
threw; `some (.scalar s)` means it produced the non-`null` scalar `s`
(destructuring then yields only `undefined` properties); `some (.record
ms)` means it produced an object whose properties, as read by access —
`JSON.parse` has already collapsed any duplicate source keys, last
occurrence winning — are `ms`.  JavaScript objects are immutable
association lists here; for the frame claim about the caller's
`parameters` object, the two objects of the source are placed in an
explicit heap of objects addressed by allocation index. -/

/-- JavaScript truthiness of a possibly-`undefined` string:
`undefined`, `null` and `""` are falsy. -/
def strOptTruthy : Option String → Bool
  | some s => decide (s ≠ "")
  | none => false

/-- JavaScript truthiness of a scalar value. -/
def jtruthy : Jval → Bool
  | .jnull => false
  | .jbool b => b
  | .jnum i => decide (i ≠ 0)
  | .jstr s => decide (s ≠ "")

/-- JavaScript template-literal rendering of a scalar. -/
def jvalDisplay : Jval → List Char
  | .jnull => "null".data
  | .jbool true => "true".data
  | .jbool false => "false".data
  | .jnum i => intDigs i
  | .jstr s => s.data

/-- ASCII lowering on character lists (`String.prototype.toLowerCase`). -/
def lowerList (cs : List Char) : List Char := cs.map Char.toLower

/-- Case-insensitive literal match: `pat` (given in lowercase) matches the
start of `cs` up to `toLowerCase`; returns the remainder. -/
def stripPrefixCI : List Char → List Char → Option (List Char)
  | [], cs => some cs
  | _ :: _, [] => none
  | p :: ps, c :: cs => if c.toLower = p then stripPrefixCI ps cs else none

/-- Does `order\s+by\b` match at the head of `cs`?  (The `\b` before
`order` is the scanner's concern.) -/
def orderByAt (cs : List Char) : Bool :=
  match stripPrefixCI ['o', 'r', 'd', 'e', 'r'] cs with
  | none => false
  | some r1 =>
    match r1 with
    | [] => false
    | c :: _ =>
      if isWsChar c then
        match stripPrefixCI ['b', 'y'] (r1.dropWhile isWsChar) with
        | none => false
        | some [] => true
        | some (d :: _) => !isWordChar d
      else false

/-- Scanner for `/\border\s+by\b/i.test`: `bdry` records whether a `\b`
boundary precedes the current position (start of input, or previous
character not a word character). -/
def hasOrderByAux : Bool → List Char → Bool
  | _, [] => false
  | bdry, c :: rest => (bdry && orderByAt (c :: rest)) || hasOrderByAux (!isWordChar c) rest

/-- `/\border\s+by\b/i.test(paginatedSql)` (line 28). -/
def hasOrderByRe (cs : List Char) : Bool := hasOrderByAux true cs

/-- JavaScript object update `obj[k] = v`: overwrite the existing property
in place, or append a new one. -/
def setObjKey : Params → String → Jval → Params
  | [], k, v => [(k, v)]
  | (k', v') :: rest, k, v =>
    if k' = k then (k, v) :: rest else (k', v') :: setObjKey rest k v

/-- `cursor_${fieldToUse.replace(/[^a-zA-Z0-9_]/g, '_')}` (line 77). -/
def cursorParamName (f : String) : String :=
  ⟨"cursor_".data ++ f.data.map (fun c => if isWordChar c then c else '_')⟩

/-- The cursor `try` block (lines 61–89): the statement and parameter
object it leaves behind, for an arbitrary behaviour `dec` of the decode
step (see the section comment).  Every throwing path — `JSON.parse`
failure, destructuring `null` (both `dec tok = none`), the explicit
`!field || value === undefined` throw, and the `TypeError` of
`fieldToUse.replace` when `field` is a truthy non-string — is caught by
the source and leaves both untouched.  (After the explicit throw `field`
is truthy, so `fieldToUse = field || actualCursorField` is `field` itself,
and `comparator = operator || '>'` is as below.) -/
def applyCursor (dec : String → Option Json) (sqlCs : List Char)
    (params : Params) (tok : String) : List Char × Params :=
  match dec tok with
  | none => (sqlCs, params)
  | some (.scalar _) => (sqlCs, params)
  | some (.record ms) =>
    match jlookup ms "field", jlookup ms "value" with
    | some fv, some v =>
      if jtruthy fv then
        match fv with
        | .jstr f =>
          let comparator : List Char :=
            match jlookup ms "operator" with
            | some ov => if jtruthy ov then jvalDisplay ov else ['>']
            | none => ['>']
          let whereWord : List Char :=
            if containsList (lowerList sqlCs) "where".data then "AND".data
            else "WHERE".data
          let pname := cursorParamName f
          (sqlCs ++ ' ' :: whereWord ++ ' ' :: '[' :: f.data ++ ']' :: ' ' ::
              comparator ++ ' ' :: '@' :: pname.data,
            setObjKey params pname v)
        | _ => (sqlCs, params)
      else (sqlCs, params)
    | _, _ => (sqlCs, params)

/-- Lines 92–94: append `OFFSET 0 ROWS FETCH NEXT ${pageSize} ROWS ONLY`
unless the lowercased statement already contains `offset` or `fetch`. -/
def addRowBound (sqlCs : List Char) (pageSize : Nat) : List Char :=
  if containsList (lowerList sqlCs) "offset".data ||
      containsList (lowerList sqlCs) "fetch".data then sqlCs
  else
    sqlCs ++ " OFFSET 0 ROWS FETCH NEXT ".data ++ natDigs pageSize ++
      " ROWS ONLY".data

/-- Lines 27–58: the `ORDER BY` analysis, returning the possibly extended
statement and `actualCursorField`. -/
def orderByStep (extractField : List Char → Option String) (s0 : List Char)
    (cursorField : Option String) (defaultCursorField : String) :
    List Char × Option String :=
  if hasOrderByRe s0 then
    match extractField s0 with
    | some ef => (s0, if strOptTruthy cursorField then cursorField else some ef)
    | none => (s0, cursorField)
  else if strOptTruthy cursorField then
    (s0 ++ " ORDER BY ".data ++ (cursorField.getD "").data ++ " ASC".data,
      cursorField)
  else
    (s0 ++ " ORDER BY ".data ++ defaultCursorField.data ++ " ASC".data,
      some defaultCursorField)

/-- The result record of `paginateQuery`. -/
structure PagResult where
  paginatedSql : List Char
  parameters : Params
  cursorField : Option String
deriving DecidableEq, Repr

/-- `paginateQuery(sql, options)` (lines 14–101) over immutable parameter
objects, for an arbitrary behaviour `dec` of the decode step;
`cursor = some tok` with `tok ≠ ""` is a truthy cursor. -/
def paginateQueryD (dec : String → Option Json)
    (extractField : List Char → Option String) (sql : String)
    (cursorField : Option String) (pageSize : Nat) (cursor : Option String)
    (parameters : Params) (defaultCursorField : String) : PagResult :=
  let s0 := (trimStr sql).data
  let step1 := orderByStep extractField s0 cursorField defaultCursorField
  let step2 :=
    match cursor with
    | some tok =>
      if tok ≠ "" then applyCursor dec step1.1 parameters tok
      else (step1.1, parameters)
    | none => (step1.1, parameters)
  ⟨addRowBound step2.1 pageSize, step2.2, step1.2⟩

/-- `paginateQuery(sql, options)` at the strict codec of the section
above. -/
def paginateQuery (extractField : List Char → Option String) (sql : String)
    (cursorField : Option String) (pageSize : Nat) (cursor : Option String)
    (parameters : Params) (defaultCursorField : String) : PagResult :=
  paginateQueryD decodeCursorJson extractField sql cursorField pageSize
    cursor parameters defaultCursorField

/-- A heap of parameter objects addressed by allocation index. -/
abbrev Heap := List Params

/-- Object contents at address `i`. -/
def heapGet (h : Heap) (i : Nat) : Params := (h.drop i).headD []

/-- Overwrite the object at address `i`. -/
def heapSet : Heap → Nat → Params → Heap
  | [], _, _ => []
  | _ :: rest, 0, p => p :: rest
  | q :: rest, i + 1, p => q :: heapSet rest i p

/-- `paginateQuery` with the source's two parameter objects made explicit:
`pid` addresses the caller's `parameters` object; line 24's spread
`{ ...parameters }` allocates a fresh object (`uid = h.length`), and the
only write of the function — line 82's
`updatedParameters[cursorParamName] = value` — goes to `uid`, which is the
object the function returns.  Result: final heap, address of the returned
object, rewritten statement and `cursorField`. -/
def paginateQueryH (extractField : List Char → Option String) (h : Heap)
    (pid : Nat) (sql : String) (cursorField : Option String) (pageSize : Nat)
    (cursor : Option String) (defaultCursorField : String) :
    Heap × Nat × List Char × Option String :=
  let uid := h.length
  let h1 := h ++ [heapGet h pid]
  let r := paginateQuery extractField sql cursorField pageSize cursor
    (heapGet h pid) defaultCursorField
  (heapSet h1 uid r.parameters, uid, r.paginatedSql, r.cursorField)

/-- `generateNextCursor(lastRow, cursorField)` (lines 109–128). -/
def generateNextCursor (lastRow : Option Row) (cursorField : String) :
    Option String :=
  match lastRow with
  | none => none
  | some row =>
    if cursorField = "" then none
    else
      match jlookup row cursorField with
      | none => none
      | some v => some (encodeCursorToken cursorField v ">")

/-- `generatePrevCursor(firstRow, cursorField)` (lines 136–155). -/
def generatePrevCursor (firstRow : Option Row) (cursorField : String) :
    Option String :=
  match firstRow with
  | none => none
  | some row =>
    if cursorField = "" then none
    else
      match jlookup row cursorField with
      | none => none
      | some v => some (encodeCursorToken cursorField v "<=")

/-- The `paginationMeta` record of `registerPaginatedQueryTool`. -/
structure PagMeta where
  cursorField : String
  pageSize : Nat
  returnedRows : Nat
  hasMore : Bool
  nextCursor : Option String
  prevCursor : Option String
deriving DecidableEq, Repr

/-- `registerPaginatedQueryTool`'s cursor generation and `paginationMeta`
(lines 1774–1806): `recordset` is what the execution port returned for the
rewritten statement.  The local `hasMore = rowCount >= pageSize` only
gates `generateNextCursor`; the reported `hasMore` is `!!nextCursor`. -/
def paginatedMeta (recordset : List Row) (pageSize : Nat)
    (cursorArg : Option String) (effectiveField : String) : PagMeta :=
  let rowCount := recordset.length
  let nextCursor : Option String :=
    if 0 < rowCount then
      if pageSize ≤ rowCount then
        generateNextCursor recordset.getLast? effectiveField
      else none
    else none
  let prevCursor : Option String :=
    if 0 < rowCount then
      if strOptTruthy cursorArg then
        generatePrevCursor recordset.head? effectiveField
      else none
    else none
  ⟨effectiveField, pageSize, rowCount, nextCursor.isSome, nextCursor, prevCursor⟩

/-- The destructive-keyword list shared by the three tool handlers; each
entry carries a trailing space in the source. -/
def prohibitedOperations : List String :=
  ["drop ", "delete ", "truncate ", "update ", "alter "]

/-- `prohibitedOperations.some(op => lowerSql.includes(op))`. -/
def sqlProhibited (sql : String) : Bool :=
  prohibitedOperations.any (fun op => strIncludes (lowerStr sql) op)

/-- `registerExecuteQueryTool`'s handler (src/unnamed/part_001, lines
102–140), to the depth the guard claim needs: whether the handler errors,
and the statements it passes to the execution port `executeQuery` (after
the guard it performs exactly one call, with the statement unchanged). -/
def executeQueryToolModel (sql : String) : Bool × List String :=
  if sqlProhibited sql then (true, [])
  else (false, [sql])

/-- `registerPaginatedQueryTool`'s handler (lines 1691–1770): the guard,
the optional count statement (its `ORDER BY`/`OFFSET`/`FETCH` stripping
rewrite abstracted as `countT`), then the `paginateQuery` rewrite, whose
result is the statement sent to the port. -/
def paginatedQueryToolModel (extractField : List Char → Option String)
    (countT : String → String) (sql : String) (cursorField : Option String)
    (pageSize : Nat) (cursor : Option String) (params : Params)
    (includeCount : Bool) (defaultCursorField : String) :
    Bool × List (List Char) :=
  if sqlProhibited sql then (true, [])
  else
    let countCalls : List (List Char) :=
      if includeCount then
        [("SELECT COUNT(*) AS TotalCount FROM (" ++ countT sql ++
          ") AS CountQuery").data]
      else []
    let r := paginateQuery extractField sql cursorField pageSize cursor params
      defaultCursorField
    (false, countCalls ++ [r.paginatedSql])

/-- `registerQueryStreamerTool`'s handler: the guard, then the batch loop
(`streamRun`). -/
def queryStreamerToolModel (fetch : Nat → List Row) (sql : String)
    (batchSize maxRows : Nat) (aggs : List AggSpec) :
    Bool × Option (Nat × Nat × AggMap) :=
  if sqlProhibited sql then (true, none)
  else (false, streamRun fetch batchSize maxRows aggs)

/-- The decoded token reaches line 79 and rewrites the statement: under
the decode behaviour `dec` it decodes to a record whose `field` is a
truthy string and whose `value` is present.  On every other token the
`try` block throws and is caught. -/
def cursorApplies (dec : String → Option Json) (tok : String) : Bool :=
  match dec tok with
  | some (.record ms) =>
    match jlookup ms "field", jlookup ms "value" with
    | some (.jstr f), some _ => decide (f ≠ "")
    | _, _ => false
  | _ => false

/-! ### Basic lemmas about the accumulator object -/

theorem setKey_lookup (m : AggMap) (k k' : String) (v : AggVal) :
    jlookup (setKey m k v) k' = if k = k' then some v else jlookup m k' := by
  induction m with
  | nil => by_cases h : k = k' <;> simp [setKey, jlookup, h]
  | cons e rest ih =>
    obtain ⟨ke, ve⟩ := e
    by_cases hk : ke = k
    · subst hk
      by_cases h : ke = k' <;> simp [setKey, jlookup, h]
    · by_cases h : ke = k'
      · subst h
        simp [setKey, jlookup, hk, Ne.symm hk]
      · simp [setKey, jlookup, hk, h, ih]

theorem applySpec_lookup_other (row : Row) (m : AggMap) (spec : AggSpec) (K : String)
    (h : aggKey spec ≠ K) : jlookup (applySpec row m spec) K = jlookup m K := by
  have hset : ∀ v : AggVal, jlookup (setKey m (aggKey spec) v) K = jlookup m K := by
    intro v
    rw [setKey_lookup, if_neg h]
  unfold applySpec
  repeat' split
  all_goals first
    | rfl
    | exact hset _

theorem foldl_applySpec_frame (row : Row) (K : String) :
    ∀ (aggs : List AggSpec) (m : AggMap), (∀ s ∈ aggs, aggKey s ≠ K) →
      jlookup (aggs.foldl (applySpec row) m) K = jlookup m K := by
  intro aggs
  induction aggs with
  | nil => intro m _; rfl
  | cons a t ih =>
    intro m h
    simp only [List.foldl_cons]
    rw [ih _ (fun s hs => h s (List.mem_cons_of_mem a hs)),
      applySpec_lookup_other _ _ _ _ (h a (List.mem_cons_self _ _))]

theorem processRow_lookup_other (aggs : List AggSpec) (m : AggMap) (row : Row) (K : String)
    (h : ∀ s ∈ aggs, aggKey s ≠ K) :
    jlookup (processRow aggs m row) K = jlookup m K :=
  foldl_applySpec_frame row K aggs m h

theorem processBatch_lookup_other (aggs : List AggSpec) (K : String)
    (h : ∀ s ∈ aggs, aggKey s ≠ K) :
    ∀ (rows : List Row) (m : AggMap),
      jlookup (processBatch aggs m rows) K = jlookup m K := by
  intro rows
  induction rows with
  | nil => intro m; rfl
  | cons r t ih =>
    intro m
    simp only [processBatch, List.foldl_cons]
    rw [show (t.foldl (processRow aggs) (processRow aggs m r)) =
        processBatch aggs (processRow aggs m r) t from rfl, ih,
      processRow_lookup_other _ _ _ _ h]

/-- `sum` and `avg` accumulate identically during the loop: one row adds its
numeric value (if any) to the accumulator. -/
theorem applySpec_lookup_self_sumlike (row : Row) (m : AggMap) (f : String) (op : AggOp)
    (hop : op = .sum ∨ op = .avg) (q : ℚ)
    (hm : jlookup m (aggKey ⟨f, op⟩) = some (.qnum q)) :
    jlookup (applySpec row m ⟨f, op⟩) (aggKey ⟨f, op⟩) = some (.qnum (q + rowNumVal row f)) := by
  unfold applySpec rowNumVal
  rcases hv : jlookup row f with _ | v
  · simpa using hm
  rcases v with _ | b | n | s <;>
    rcases hop with h | h <;> subst h <;>
    simp_all [setKey_lookup]

theorem processRow_lookup_sumlike (row : Row) (f : String) (op : AggOp)
    (hop : op = .sum ∨ op = .avg) :
    ∀ (aggs : List AggSpec) (m : AggMap) (q : ℚ),
      (∀ s ∈ aggs, aggKey s = aggKey ⟨f, op⟩ → s = ⟨f, op⟩) →
      aggs.count (⟨f, op⟩ : AggSpec) = 1 →
      jlookup m (aggKey ⟨f, op⟩) = some (.qnum q) →
      jlookup (processRow aggs m row) (aggKey ⟨f, op⟩) =
        some (.qnum (q + rowNumVal row f)) := by
  intro aggs
  induction aggs with
  | nil => intro m q _ hcount _; simp at hcount
  | cons a t ih =>
    intro m q huniq hcount hm
    by_cases ha : a = (⟨f, op⟩ : AggSpec)
    · subst ha
      have hcount0 : t.count (⟨f, op⟩ : AggSpec) = 0 := by
        simpa using hcount
      have hnot : ∀ s ∈ t, aggKey s ≠ aggKey ⟨f, op⟩ := by
        intro s hs hk
        have : s = (⟨f, op⟩ : AggSpec) := huniq s (List.mem_cons_of_mem _ hs) hk
        subst this
        have := List.count_pos_iff.mpr hs
        omega
      show jlookup ((t.foldl (applySpec row) (applySpec row m ⟨f, op⟩))) _ = _
      rw [foldl_applySpec_frame row _ t _ hnot,
        applySpec_lookup_self_sumlike row m f op hop q hm]
    · have hka : aggKey a ≠ aggKey ⟨f, op⟩ := fun hk =>
        ha (huniq a (List.mem_cons_self _ _) hk)
      have hcount' : t.count (⟨f, op⟩ : AggSpec) = 1 := by
        rw [List.count_cons] at hcount
        simpa [ha] using hcount
      show jlookup ((t.foldl (applySpec row) (applySpec row m a))) _ = _
      exact ih _ q (fun s hs => huniq s (List.mem_cons_of_mem _ hs)) hcount'
        (by rw [applySpec_lookup_other _ _ _ _ hka, hm])

theorem processBatch_lookup_sumlike (f : String) (op : AggOp)
    (hop : op = .sum ∨ op = .avg) (aggs : List AggSpec)
    (huniq : ∀ s ∈ aggs, aggKey s = aggKey ⟨f, op⟩ → s = ⟨f, op⟩)
    (hcount : aggs.count (⟨f, op⟩ : AggSpec) = 1) :
    ∀ (rows : List Row) (m : AggMap) (q : ℚ),
      jlookup m (aggKey ⟨f, op⟩) = some (.qnum q) →
      jlookup (processBatch aggs m rows) (aggKey ⟨f, op⟩) =
        some (.qnum (q + (rows.map (rowNumVal · f)).sum)) := by
  intro rows
  induction rows with
  | nil => intro m q hm; simpa [processBatch] using hm
  | cons r t ih =>
    intro m q hm
    show jlookup ((t.foldl (processRow aggs) (processRow aggs m r))) _ = _
    have hstep := processRow_lookup_sumlike r f op hop aggs m q huniq hcount hm
    have := ih (processRow aggs m r) (q + rowNumVal r f) hstep
    rw [show (t.foldl (processRow aggs) (processRow aggs m r)) =
        processBatch aggs (processRow aggs m r) t from rfl, this]
    simp only [List.map_cons, List.sum_cons, Option.some.injEq, AggVal.qnum.injEq]
    ring

/-! ### Lemmas about initialisation -/

theorem initAgg_fold_lookup (spec0 : AggSpec) :
    ∀ (aggs : List AggSpec) (m : AggMap),
      (∀ s ∈ aggs, aggKey s = aggKey spec0 → s = spec0) →
      (spec0 ∈ aggs ∨ jlookup m (aggKey spec0) = some (initAggVal spec0)) →
      jlookup (aggs.foldl (fun m spec => setKey m (aggKey spec) (initAggVal spec)) m)
        (aggKey spec0) = some (initAggVal spec0) := by
  intro aggs
  induction aggs with
  | nil =>
    intro m _ h
    rcases h with h | h
    · simp at h
    · simpa using h
  | cons a t ih =>
    intro m huniq h
    simp only [List.foldl_cons]
    by_cases ha : a = spec0
    · subst ha
      exact ih _ (fun s hs => huniq s (List.mem_cons_of_mem _ hs))
        (Or.inr (by rw [setKey_lookup]; simp))
    · have hka : aggKey a ≠ aggKey spec0 := fun hk => ha (huniq a (List.mem_cons_self _ _) hk)
      refine ih _ (fun s hs => huniq s (List.mem_cons_of_mem _ hs)) ?_
      rcases h with h | h
      · rcases List.mem_cons.mp h with h | h
        · exact absurd h.symm ha
        · exact Or.inl h
      · exact Or.inr (by rw [setKey_lookup, if_neg hka, h])

theorem initAgg_lookup (aggs : List AggSpec) (spec0 : AggSpec)
    (hmem : spec0 ∈ aggs)
    (huniq : ∀ s ∈ aggs, aggKey s = aggKey spec0 → s = spec0) :
    jlookup (initAgg aggs) (aggKey spec0) = some (initAggVal spec0) :=
  initAgg_fold_lookup spec0 aggs [] huniq (Or.inl hmem)

theorem initAgg_lookup_none (K : String) :
    ∀ (aggs : List AggSpec) (m : AggMap),
      (∀ s ∈ aggs, aggKey s ≠ K) → jlookup m K = none →
      jlookup (aggs.foldl (fun m spec => setKey m (aggKey spec) (initAggVal spec)) m) K = none := by
  intro aggs
  induction aggs with
  | nil => intro m _ h; simpa using h
  | cons a t ih =>
    intro m h hm
    simp only [List.foldl_cons]
    exact ih _ (fun s hs => h s (List.mem_cons_of_mem _ hs))
      (by rw [setKey_lookup, if_neg (h a (List.mem_cons_self _ _)), hm])

/-! ### The loop characterisation -/

theorem streamLoop_spec (fetch : Nat → List Row) (bS mR : Nat) (aggs : List AggSpec) :
    ∀ (fuel : Nat) (s : StreamState) (hM : Bool) (out : StreamState),
      streamLoop fetch bS mR aggs fuel s hM = some out →
      ∃ k, out.batchCount = s.batchCount + k ∧
        out.totalProcessedRows =
          s.totalProcessedRows + (batchesJoin fetch s.batchCount k).length ∧
        out.aggregationResults =
          processBatch aggs s.aggregationResults (batchesJoin fetch s.batchCount k) := by
  intro fuel
  induction fuel with
  | zero => intro s hM out h; simp [streamLoop] at h
  | succ fuel ih =>
    intro s hM out h
    rw [streamLoop] at h
    split at h
    · obtain ⟨k, hbc, htot, hagg⟩ := ih _ _ _ h
      refine ⟨k + 1, ?_, ?_, ?_⟩
      · simpa [Nat.add_comm, Nat.add_assoc, Nat.add_left_comm] using hbc
      · rw [htot]
        simp only [batchesJoin, List.range'_succ, List.map_cons, List.flatten_cons,
          List.length_append]
        omega
      · rw [hagg]
        have hone : (if 0 < (fetch s.batchCount).length
            then processBatch aggs s.aggregationResults (fetch s.batchCount)
            else s.aggregationResults) =
            processBatch aggs s.aggregationResults (fetch s.batchCount) := by
          split
          · rfl
          · rename_i hn
            have : fetch s.batchCount = [] := by
              cases hfe : fetch s.batchCount with
              | nil => rfl
              | cons x xs => rw [hfe] at hn; simp at hn
            rw [this]; rfl
        rw [hone]
        simp only [batchesJoin, List.range'_succ, List.map_cons, List.flatten_cons]
        exact (List.foldl_append ..).symm
    · obtain rfl : s = out := by injection h
      exact ⟨0, by simp [batchesJoin], by simp [batchesJoin], by simp [batchesJoin, processBatch]⟩

theorem streamLoop_isSome (fetch : Nat → List Row) (bS mR : Nat) (aggs : List AggSpec)
    (hbs : 1 ≤ bS) :
    ∀ (fuel : Nat) (s : StreamState) (hM : Bool),
      mR < s.totalProcessedRows + fuel + 1 →
      (streamLoop fetch bS mR aggs (fuel + 1) s hM).isSome := by
  intro fuel
  induction fuel with
  | zero =>
    intro s hM hlt
    rw [streamLoop]
    split
    · rename_i hg
      omega
    · simp
  | succ fuel ih =>
    intro s hM hlt
    rw [streamLoop]
    split
    · rename_i hg
      by_cases hn : bS ≤ (fetch s.batchCount).length
      · refine ih _ _ ?_
        dsimp only
        omega
      · rw [streamLoop, if_neg (by simp [hn])]
        simp
    · simp

/-! ### Claim C9 — termination of the streaming loop -/

/-- C9: every streaming-aggregation run terminates: with any batch sequence
returned by the execution port (each fetch assumed to return), the batch
loop ends after finitely many iterations — `maxRows + 1` fuel always
suffices, because the loop stops as soon as a batch returns fewer rows than
`batchSize` and otherwise adds at least `batchSize ≥ 1` rows per iteration
while requiring `totalProcessedRows < maxRows` to continue. -/
theorem C9_streamRun_terminates (fetch : Nat → List Row) (batchSize maxRows : Nat)
    (aggs : List AggSpec) (hbs : 1 ≤ batchSize) :
    (streamRun fetch batchSize maxRows aggs).isSome = true := by
  unfold streamRun
  rw [Option.isSome_map']
  exact streamLoop_isSome fetch batchSize maxRows aggs hbs maxRows ⟨0, 0, initAgg aggs⟩ true
    (by omega)

theorem C9_streamRun_terminates_witness :
    1 ≤ 100 ∧ (streamRun (fun _ => ([] : List Row)) 100 5 []).isSome = true :=
  ⟨by decide, C9_streamRun_terminates (fun _ => ([] : List Row)) 100 5 [] (by decide)⟩

/-! ### Claim C6 — the row-cap invariant -/

/-- C6 (counterexample to the claim as stated): with `batchSize = 100` and
`maxRows = 1` (both schema-valid), a run whose first batch returns 100 rows
ends with `totalProcessedRows = 100 > maxRows = 1`: the loop checks
`totalProcessedRows < maxRows` only before a batch and adds the whole batch
afterwards, so `totalProcessed ≤ maxRows` does not hold at termination. -/
theorem C6_counterexample :
    streamRun (fun _ => List.replicate 100 ([] : Row)) 100 1 [] = some (100, 1, []) ∧
      ¬ (100 ≤ (1 : Nat)) := by
  constructor
  · decide
  · decide

/-- C6 (amended): at every point of the batch loop (from any reachable
state, hence also at termination), `totalProcessedRows` stays strictly below
`maxRows + batchSize`, provided each fetched batch holds at most `batchSize`
rows; the cap can thus be overshot by at most one batch, not more. -/
theorem C6_totalProcessed_lt_maxRows_add_batchSize
    (fetch : Nat → List Row) (batchSize maxRows : Nat) (aggs : List AggSpec)
    (fuel : Nat) (s : StreamState) (hM : Bool) (out : StreamState)
    (hb : ∀ i, (fetch i).length ≤ batchSize)
    (hs : s.totalProcessedRows < maxRows + batchSize)
    (hrun : streamLoop fetch batchSize maxRows aggs fuel s hM = some out) :
    out.totalProcessedRows < maxRows + batchSize := by
  induction fuel generalizing s hM with
  | zero => simp [streamLoop] at hrun
  | succ fuel ih =>
    rw [streamLoop] at hrun
    split at hrun
    · rename_i hg
      refine ih _ _ ?_ hrun
      dsimp only
      have := hb s.batchCount
      omega
    · obtain rfl : s = out := by injection hrun
      exact hs

theorem C6_totalProcessed_witness :
    (∀ i : Nat, ((fun _ => List.replicate 100 ([] : Row)) i).length ≤ 100) ∧
    ((0 : Nat) < 1 + 100) ∧
    streamLoop (fun _ => List.replicate 100 ([] : Row)) 100 1 [] 2 ⟨0, 0, []⟩ true =
      some ⟨100, 1, []⟩ ∧
    (⟨100, 1, []⟩ : StreamState).totalProcessedRows < 1 + 100 :=
  ⟨fun _ => by simp, by decide, by decide,
    C6_totalProcessed_lt_maxRows_add_batchSize (fun _ => List.replicate 100 ([] : Row))
      100 1 [] 2 ⟨0, 0, []⟩ true ⟨100, 1, []⟩ (fun _ => by simp) (by decide) (by decide)⟩

/-! ### Key injectivity and finalisation lemmas -/

/-- The accumulator key `${operation}:${field}` determines the spec: the six
operation names are colon-free and pairwise distinguishable, so two distinct
specs never collide in the string-keyed accumulator object. -/
theorem aggKey_injective {s1 s2 : AggSpec} (h : aggKey s1 = aggKey s2) : s1 = s2 := by
  obtain ⟨f1, op1⟩ := s1
  obtain ⟨f2, op2⟩ := s2
  have hd : (aggKey ⟨f1, op1⟩).data = (aggKey ⟨f2, op2⟩).data := congrArg String.data h
  simp only [aggKey, String.data_append] at hd
  have hk : op1 = op2 ∧ f1.data = f2.data := by
    cases op1 <;> cases op2 <;> simp_all [AggOp.str, String.data]
  obtain ⟨rfl, hdata⟩ := hk
  have hf : f1 = f2 := by
    cases f1; cases f2; exact congrArg String.mk hdata
  rw [hf]

/-- The literal key `"count:" ++ f` the finaliser reads is exactly the
accumulator key a `count` aggregation over `f` would write. -/
theorem countKey_eq (f : String) : "count:" ++ f = aggKey ⟨f, .count⟩ := by
  cases f
  rfl

theorem finalizeStep_lookup_other (tot : Nat) (m : AggMap) (spec : AggSpec) (K : String)
    (h : aggKey spec ≠ K) : jlookup (finalizeStep tot m spec) K = jlookup m K := by
  have hset : ∀ v : AggVal, jlookup (setKey m (aggKey spec) v) K = jlookup m K := by
    intro v
    rw [setKey_lookup, if_neg h]
  unfold finalizeStep
  repeat' split
  all_goals first
    | rfl
    | exact hset _

theorem finalizeStep_id_of_op (tot : Nat) (m : AggMap) (spec : AggSpec)
    (h1 : spec.operation ≠ .avg) (h2 : spec.operation ≠ .countDistinct) :
    finalizeStep tot m spec = m := by
  unfold finalizeStep
  rcases hop : spec.operation <;> simp_all

theorem foldl_finalizeStep_frame (tot : Nat) (K : String) :
    ∀ (aggs : List AggSpec) (m : AggMap),
      (∀ s ∈ aggs, aggKey s = K → s.operation ≠ .avg ∧ s.operation ≠ .countDistinct) →
      jlookup (aggs.foldl (finalizeStep tot) m) K = jlookup m K := by
  intro aggs
  induction aggs with
  | nil => intro m _; rfl
  | cons a t ih =>
    intro m h
    simp only [List.foldl_cons]
    rw [ih _ (fun s hs => h s (List.mem_cons_of_mem _ hs))]
    by_cases hk : aggKey a = K
    · obtain ⟨h1, h2⟩ := h a (List.mem_cons_self _ _) hk
      rw [finalizeStep_id_of_op tot m a h1 h2]
    · rw [finalizeStep_lookup_other tot m a K hk]

theorem foldl_finalizeStep_avg (tot : Nat) (f : String) :
    ∀ (aggs : List AggSpec) (m : AggMap) (q : ℚ),
      aggs.count (⟨f, .avg⟩ : AggSpec) = 1 →
      (∀ s ∈ aggs, aggKey s ≠ "count:" ++ f) →
      jlookup m (aggKey ⟨f, .avg⟩) = some (.qnum q) →
      jlookup m ("count:" ++ f) = none →
      0 < tot →
      jlookup (aggs.foldl (finalizeStep tot) m) (aggKey ⟨f, .avg⟩) =
        some (.qnum (q / (tot : ℚ))) := by
  intro aggs
  induction aggs with
  | nil => intro m q hcount _ _ _ _; simp at hcount
  | cons a t ih =>
    intro m q hcount hnc hm hmc htot
    simp only [List.foldl_cons]
    by_cases ha : a = (⟨f, .avg⟩ : AggSpec)
    · subst ha
      have hcount0 : t.count (⟨f, .avg⟩ : AggSpec) = 0 := by simpa using hcount
      have hstep : finalizeStep tot m ⟨f, .avg⟩ =
          setKey m (aggKey ⟨f, .avg⟩) (.qnum (q / (tot : ℚ))) := by
        unfold finalizeStep
        have hdiv : avgDivisor tot m f = (tot : ℚ) := by
          unfold avgDivisor
          rw [hmc]
        simp only [hdiv, hm]
        rw [if_pos (by exact_mod_cast htot)]
      rw [hstep, foldl_finalizeStep_frame tot _ t _ ?_, setKey_lookup, if_pos rfl]
      intro s hs hk
      exfalso
      have hseq : s = (⟨f, .avg⟩ : AggSpec) := aggKey_injective hk
      subst hseq
      have := List.count_pos_iff.mpr hs
      omega
    · have hka : aggKey a ≠ aggKey ⟨f, .avg⟩ := fun hk => ha (aggKey_injective hk)
      have hcount' : t.count (⟨f, .avg⟩ : AggSpec) = 1 := by
        rw [List.count_cons] at hcount
        simpa [ha] using hcount
      refine ih _ q hcount' (fun s hs => hnc s (List.mem_cons_of_mem _ hs)) ?_ ?_ htot
      · rw [finalizeStep_lookup_other tot m a _ hka, hm]
      · rw [finalizeStep_lookup_other tot m a _ (hnc a (List.mem_cons_self _ _)), hmc]

/-! ### Run-level characterisations of `sum` and `avg` -/

theorem streamRun_sum_lookup (fetch : Nat → List Row) (batchSize maxRows : Nat)
    (aggs : List AggSpec) (f : String) (out : Nat × Nat × AggMap)
    (hcount : aggs.count (⟨f, .sum⟩ : AggSpec) = 1)
    (hrun : streamRun fetch batchSize maxRows aggs = some out) :
    jlookup out.2.2 (aggKey ⟨f, .sum⟩) =
      some (.qnum (sumField (batchesJoin fetch 0 out.2.1) f)) := by
  obtain ⟨s, hloop, hout⟩ := Option.map_eq_some'.mp hrun
  obtain ⟨k, hbc, htot, hagg⟩ := streamLoop_spec fetch batchSize maxRows aggs _ _ _ _ hloop
  subst hout
  dsimp only at hbc htot hagg ⊢
  have hk : k = s.batchCount := by omega
  subst hk
  have hmem : (⟨f, .sum⟩ : AggSpec) ∈ aggs := List.count_pos_iff.mp (by omega)
  have hinit : jlookup (initAgg aggs) (aggKey ⟨f, .sum⟩) = some (.qnum 0) :=
    initAgg_lookup aggs ⟨f, .sum⟩ hmem (fun s _ h => aggKey_injective h)
  have hloopval := processBatch_lookup_sumlike f .sum (Or.inl rfl) aggs
    (fun s _ h => aggKey_injective h) hcount (batchesJoin fetch 0 s.batchCount)
    (initAgg aggs) 0 hinit
  have hfin : jlookup (finalizeAggs aggs s.totalProcessedRows s.aggregationResults)
      (aggKey ⟨f, .sum⟩) = jlookup s.aggregationResults (aggKey ⟨f, .sum⟩) := by
    refine foldl_finalizeStep_frame _ _ aggs _ ?_
    intro s' _ hk
    obtain rfl : s' = (⟨f, .sum⟩ : AggSpec) := aggKey_injective hk
    exact ⟨by simp, by simp⟩
  rw [hfin, hagg, hloopval]
  simp [sumField]

theorem streamRun_avg_lookup (fetch : Nat → List Row) (batchSize maxRows : Nat)
    (aggs : List AggSpec) (f : String) (out : Nat × Nat × AggMap)
    (hcount : aggs.count (⟨f, .avg⟩ : AggSpec) = 1)
    (hnocount : (⟨f, .count⟩ : AggSpec) ∉ aggs)
    (hrun : streamRun fetch batchSize maxRows aggs = some out)
    (hpos : 0 < out.1) :
    jlookup out.2.2 (aggKey ⟨f, .avg⟩) =
      some (.qnum (sumField (batchesJoin fetch 0 out.2.1) f / (out.1 : ℚ))) := by
  obtain ⟨s, hloop, hout⟩ := Option.map_eq_some'.mp hrun
  obtain ⟨k, hbc, htot, hagg⟩ := streamLoop_spec fetch batchSize maxRows aggs _ _ _ _ hloop
  subst hout
  dsimp only at hbc htot hagg hpos ⊢
  have hk : k = s.batchCount := by omega
  subst hk
  have hnc : ∀ s' ∈ aggs, aggKey s' ≠ "count:" ++ f := by
    intro s' hs' hk
    rw [countKey_eq] at hk
    exact hnocount ((aggKey_injective hk) ▸ hs')
  have hmem : (⟨f, .avg⟩ : AggSpec) ∈ aggs := List.count_pos_iff.mp (by omega)
  have hinit : jlookup (initAgg aggs) (aggKey ⟨f, .avg⟩) = some (.qnum 0) :=
    initAgg_lookup aggs ⟨f, .avg⟩ hmem (fun s _ h => aggKey_injective h)
  have hinitc : jlookup (initAgg aggs) ("count:" ++ f) = none :=
    initAgg_lookup_none ("count:" ++ f) aggs [] hnc rfl
  have hloopval := processBatch_lookup_sumlike f .avg (Or.inr rfl) aggs
    (fun s' _ h => aggKey_injective h) hcount (batchesJoin fetch 0 s.batchCount)
    (initAgg aggs) 0 hinit
  have hloopc : jlookup s.aggregationResults ("count:" ++ f) = none := by
    rw [hagg, processBatch_lookup_other aggs _ hnc, hinitc]
  have hval : jlookup s.aggregationResults (aggKey ⟨f, .avg⟩) =
      some (.qnum (sumField (batchesJoin fetch 0 s.batchCount) f)) := by
    rw [hagg, hloopval]
    simp [sumField]
  have hfin := foldl_finalizeStep_avg s.totalProcessedRows f aggs
    s.aggregationResults (sumField (batchesJoin fetch 0 s.batchCount) f)
    hcount hnc hval hloopc hpos
  simpa [finalizeAggs] using hfin

/-! ### Claim C7 — sum aggregation totals and batch-size invariance -/

/-- C7 (counterexample to the claim as stated): a run is free to request the
same `sum` aggregation twice (`aggregations` is an arbitrary array and the
handler processes every entry), and then every row's value is added twice:
over one row with `amount = 1`, the reported `sum:amount` is `2`, not the
field's sum `1`. -/
theorem C7_counterexample :
    streamRun (fun _ => [[("amount", Jval.jnum 1)]]) 100 1
        [⟨"amount", .sum⟩, ⟨"amount", .sum⟩] =
      some (1, 1, [("sum:amount", AggVal.qnum (0 + ((1 : Int) : ℚ) + ((1 : Int) : ℚ)))]) ∧
    sumField [[("amount", Jval.jnum 1)]] "amount" = 1 ∧
    (0 + ((1 : Int) : ℚ) + ((1 : Int) : ℚ)) ≠ (1 : ℚ) := by
  refine ⟨rfl, ?_, by norm_num⟩
  norm_num [sumField, rowNumVal, jlookup]

/-- C7 (amended): in any two streaming-aggregation runs that request the
`sum` aggregation over `f` exactly once, the final reported `sum:f` equals
the sum of that field's non-null numeric values over all processed rows, and
hence any two runs (with any batch sizes) that process the same row sequence
report the same sum. -/
theorem C7_sum_batch_invariance
    (fetch : Nat → List Row) (batchSize maxRows : Nat)
    (fetch' : Nat → List Row) (batchSize' maxRows' : Nat)
    (aggs : List AggSpec) (f : String) (out out' : Nat × Nat × AggMap)
    (hcount : aggs.count (⟨f, .sum⟩ : AggSpec) = 1)
    (hrun : streamRun fetch batchSize maxRows aggs = some out)
    (hrun' : streamRun fetch' batchSize' maxRows' aggs = some out')
    (hjoin : batchesJoin fetch' 0 out'.2.1 = batchesJoin fetch 0 out.2.1) :
    jlookup out.2.2 (aggKey ⟨f, .sum⟩) =
      some (.qnum (sumField (batchesJoin fetch 0 out.2.1) f)) ∧
    jlookup out'.2.2 (aggKey ⟨f, .sum⟩) = jlookup out.2.2 (aggKey ⟨f, .sum⟩) := by
  have h1 := streamRun_sum_lookup fetch batchSize maxRows aggs f out hcount hrun
  have h2 := streamRun_sum_lookup fetch' batchSize' maxRows' aggs f out' hcount hrun'
  exact ⟨h1, by rw [h1, h2, hjoin]⟩

theorem C7_sum_batch_invariance_witness :
    ([(⟨"amount", .sum⟩ : AggSpec)].count (⟨"amount", .sum⟩ : AggSpec) = 1) ∧
    streamRun (fun _ => [[("x", Jval.jstr "v")]]) 100 1 [⟨"amount", .sum⟩] =
      some (1, 1, [("sum:amount", AggVal.qnum 0)]) ∧
    batchesJoin (fun _ => [[("x", Jval.jstr "v")]]) 0 (1 : Nat) =
      batchesJoin (fun _ => [[("x", Jval.jstr "v")]]) 0 (1 : Nat) ∧
    (jlookup [("sum:amount", AggVal.qnum 0)] (aggKey ⟨"amount", .sum⟩) =
      some (.qnum (sumField (batchesJoin (fun _ => [[("x", Jval.jstr "v")]]) 0 (1 : Nat))
        "amount")) ∧
     jlookup [("sum:amount", AggVal.qnum 0)] (aggKey ⟨"amount", .sum⟩) =
      jlookup [("sum:amount", AggVal.qnum 0)] (aggKey ⟨"amount", .sum⟩)) :=
  ⟨by decide, rfl, rfl,
    C7_sum_batch_invariance (fun _ => [[("x", Jval.jstr "v")]]) 100 1
      (fun _ => [[("x", Jval.jstr "v")]]) 100 1 [⟨"amount", .sum⟩] "amount"
      (1, 1, [("sum:amount", AggVal.qnum 0)]) (1, 1, [("sum:amount", AggVal.qnum 0)])
      (by decide) rfl rfl rfl⟩

/-! ### Claim C8 — avg finalisation -/

/-- C8 (counterexample to the claim as stated): over the rows
`[{amount: 10}, {amount: null}]` with `aggregations = [{amount, avg}]` and no
`count` aggregation requested, the finaliser divides by
`totalProcessedRows = 2` (the fallback of
`aggregationResults['count:amount'] || totalProcessedRows`), not by the
count of the field's non-null values (1): the reported average is `5`, while
the claim's `sum / count-of-non-null-values` would be `10`. -/
theorem C8_counterexample :
    streamRun (fun _ => [[("amount", Jval.jnum 10)], [("amount", Jval.jnull)]]) 100 1
        [⟨"amount", .avg⟩] =
      some (2, 1, [("avg:amount", AggVal.qnum ((0 + ((10 : Int) : ℚ)) / ((2 : Nat) : ℚ)))]) ∧
    countField [[("amount", Jval.jnum 10)], [("amount", Jval.jnull)]] "amount" = 1 ∧
    sumField [[("amount", Jval.jnum 10)], [("amount", Jval.jnull)]] "amount" = 10 ∧
    ((0 + ((10 : Int) : ℚ)) / ((2 : Nat) : ℚ)) ≠ 10 / 1 := by
  refine ⟨rfl, by decide, ?_, by norm_num⟩
  norm_num [sumField, rowNumVal, jlookup]

/-- C8 (amended): when no `count` aggregation over the same field is
requested (the generic case), the reported average is computed by a single
division at finalisation: the accumulated sum of the field's non-null
numeric values divided by the total number of processed rows (not by the
count of the field's non-null values); no division happens mid-run. -/
theorem C8_avg_finalized_division
    (fetch : Nat → List Row) (batchSize maxRows : Nat)
    (aggs : List AggSpec) (f : String) (out : Nat × Nat × AggMap)
    (hcount : aggs.count (⟨f, .avg⟩ : AggSpec) = 1)
    (hnocount : (⟨f, .count⟩ : AggSpec) ∉ aggs)
    (hrun : streamRun fetch batchSize maxRows aggs = some out)
    (hpos : 0 < out.1) :
    jlookup out.2.2 (aggKey ⟨f, .avg⟩) =
      some (.qnum (sumField (batchesJoin fetch 0 out.2.1) f / (out.1 : ℚ))) :=
  streamRun_avg_lookup fetch batchSize maxRows aggs f out hcount hnocount hrun hpos

theorem C8_avg_finalized_division_witness :
    ([(⟨"amount", .avg⟩ : AggSpec)].count (⟨"amount", .avg⟩ : AggSpec) = 1) ∧
    ((⟨"amount", .count⟩ : AggSpec) ∉ [(⟨"amount", .avg⟩ : AggSpec)]) ∧
    streamRun (fun _ => [[("x", Jval.jstr "v")]]) 100 1 [⟨"amount", .avg⟩] =
      some (1, 1, [("avg:amount", AggVal.qnum (0 / ((1 : Nat) : ℚ)))]) ∧
    (0 : Nat) < 1 ∧
    jlookup [("avg:amount", AggVal.qnum (0 / ((1 : Nat) : ℚ)))] (aggKey ⟨"amount", .avg⟩) =
      some (.qnum (sumField (batchesJoin (fun _ => [[("x", Jval.jstr "v")]]) 0 (1 : Nat))
        "amount" / (((1, 1, [("avg:amount", AggVal.qnum (0 / ((1 : Nat) : ℚ)))]) :
          Nat × Nat × AggMap).1 : ℚ))) :=
  ⟨by decide, by decide, rfl, by decide,
    C8_avg_finalized_division (fun _ => [[("x", Jval.jstr "v")]]) 100 1
      [⟨"amount", .avg⟩] "amount" (1, 1, [("avg:amount", AggVal.qnum (0 / ((1 : Nat) : ℚ)))])
      (by decide) (by decide) rfl (by decide)⟩


/-! ### Codec lemmas: decimal digits -/

theorem hexDigitVal_hexDigitChar {n : Nat} (h : n < 16) :
    hexDigitVal (hexDigitChar n) = some n := by
  interval_cases n <;> decide

theorem isDigitCh_digitChar {n : Nat} (h : n < 10) : isDigitCh (digitChar n) = true := by
  interval_cases n <;> decide

theorem toNat_digitChar {n : Nat} (h : n < 10) : (digitChar n).toNat = 48 + n := by
  interval_cases n <;> decide

theorem natDigsGo_ne_nil {fuel n : Nat} (h : n < fuel) : natDigsGo fuel n ≠ [] := by
  cases fuel with
  | zero => omega
  | succ fuel =>
    rw [natDigsGo]
    split
    · simp
    · simp

theorem natDigsGo_all_digits :
    ∀ (fuel n : Nat), n < fuel → ∀ c ∈ natDigsGo fuel n, isDigitCh c = true := by
  intro fuel
  induction fuel with
  | zero => omega
  | succ fuel ih =>
    intro n hn c hc
    rw [natDigsGo] at hc
    split at hc
    · rename_i h10
      simp only [List.mem_singleton] at hc
      exact hc ▸ isDigitCh_digitChar h10
    · rename_i h10
      rcases List.mem_append.mp hc with h | h
      · exact ih (n / 10) (by omega) c h
      · simp only [List.mem_singleton] at h
        exact h ▸ isDigitCh_digitChar (Nat.mod_lt _ (by omega))

theorem natDigsGo_head_ne_zero :
    ∀ (fuel n : Nat), n < fuel → 0 < n → ∀ (c : Char) (tail : List Char),
      natDigsGo fuel n = c :: tail → c ≠ '0' := by
  intro fuel
  induction fuel with
  | zero => omega
  | succ fuel ih =>
    intro n hn hpos c tail heq
    rw [natDigsGo] at heq
    split at heq
    · rename_i h10
      obtain ⟨h1, -⟩ : digitChar n = c ∧ [] = tail := by simpa using heq
      subst h1
      have hdec : ∀ m < 10, 0 < m → digitChar m ≠ '0' := by decide
      exact hdec n h10 hpos
    · rename_i h10
      have hne := natDigsGo_ne_nil (show n / 10 < fuel by omega)
      cases hA : natDigsGo fuel (n / 10) with
      | nil => exact absurd hA hne
      | cons c0 tail0 =>
        rw [hA] at heq
        simp only [List.cons_append, List.cons.injEq] at heq
        exact heq.1 ▸ ih (n / 10) (by omega) (by omega) c0 tail0 hA

theorem parseNatAux_stop {acc : Nat} {rest : List Char}
    (h : rest = [] ∨ ∃ c t, rest = c :: t ∧ isDigitCh c = false) :
    parseNatAux acc rest = (acc, rest) := by
  rcases h with rfl | ⟨c, t, rfl, hc⟩
  · rfl
  · rw [parseNatAux, if_neg (by simp [hc])]

theorem parseNatAux_natDigsGo :
    ∀ (fuel n acc : Nat) (rest : List Char), n < fuel →
      parseNatAux acc (natDigsGo fuel n ++ rest) =
        parseNatAux (acc * 10 ^ (natDigsGo fuel n).length + n) rest := by
  intro fuel
  induction fuel with
  | zero => omega
  | succ fuel ih =>
    intro n acc rest hn
    rw [natDigsGo]
    split
    · rename_i h10
      simp only [List.singleton_append, List.length_singleton]
      rw [parseNatAux, if_pos (isDigitCh_digitChar h10), toNat_digitChar h10]
      congr 1
      omega
    · rename_i h10
      rw [List.append_assoc, List.singleton_append, ih (n / 10) acc _ (by omega),
        parseNatAux, if_pos (isDigitCh_digitChar (Nat.mod_lt _ (by omega))),
        toNat_digitChar (Nat.mod_lt _ (by omega))]
      simp only [List.length_append, List.length_singleton]
      congr 1
      have hdm : n / 10 * 10 + n % 10 = n := by omega
      have hpow : 10 ^ ((natDigsGo fuel (n / 10)).length + 1) =
          10 ^ (natDigsGo fuel (n / 10)).length * 10 := pow_succ 10 _
      calc (acc * 10 ^ (natDigsGo fuel (n / 10)).length + n / 10) * 10 + (48 + n % 10 - 48)
          = acc * (10 ^ (natDigsGo fuel (n / 10)).length * 10) + (n / 10 * 10 + n % 10) := by
            ring_nf
            omega
        _ = acc * 10 ^ ((natDigsGo fuel (n / 10)).length + 1) + n := by rw [hdm, hpow]

theorem parseDigitsStrict_natDigs (n : Nat) (rest : List Char) (hrest : nonDigitStart rest) :
    parseDigitsStrict (natDigs n ++ rest) = some (n, rest) := by
  rcases Nat.eq_zero_or_pos n with rfl | hpos
  · show parseDigitsStrict ('0' :: rest) = some (0, rest)
    have h0 : isDigitCh '0' = true := by decide
    rcases hrest with rfl | ⟨c, t, rfl, hc⟩
    · rfl
    · simp [parseDigitsStrict, h0, hc]
  · have hlt : n < n + 1 := Nat.lt_succ_self n
    cases hds : natDigs n with
    | nil => exact absurd hds (natDigsGo_ne_nil hlt)
    | cons c tail =>
      have hc : isDigitCh c = true :=
        natDigsGo_all_digits (n + 1) n hlt c
          (by rw [show natDigsGo (n + 1) n = natDigs n from rfl, hds]; simp)
      have hc0 : c ≠ '0' := natDigsGo_head_ne_zero (n + 1) n hlt hpos c tail hds
      have hfull := parseNatAux_natDigsGo (n + 1) n 0 rest hlt
      rw [show natDigsGo (n + 1) n = natDigs n from rfl, hds] at hfull
      simp only [List.cons_append] at hfull ⊢
      rw [parseNatAux, if_pos hc, parseNatAux_stop hrest] at hfull
      rw [parseDigitsStrict.eq_def]
      dsimp only
      rw [show (0 * 10 + (c.toNat - 48)) = c.toNat - 48 from by omega] at hfull
      rw [if_pos hc, if_neg hc0, hfull]
      congr 2
      simp only [List.length_cons]
      omega

theorem isDigitCh_ne_chars {c : Char} (h : isDigitCh c = true) :
    c ≠ '-' ∧ c ≠ 'n' ∧ c ≠ 't' ∧ c ≠ 'f' ∧ c ≠ '"' := by
  refine ⟨?_, ?_, ?_, ?_, ?_⟩ <;> (rintro rfl; simp [isDigitCh] at h)

theorem parseNumber_intDigs (i : Int) (rest : List Char) (hrest : nonDigitStart rest) :
    parseNumber (intDigs i ++ rest) = some (i, rest) := by
  by_cases hneg : i < 0
  · rw [intDigs, if_pos hneg]
    rw [List.cons_append, parseNumber]
    rw [parseDigitsStrict_natDigs _ rest hrest]
    simp only [Option.map_some']
    congr 2
    omega
  · rw [intDigs, if_neg hneg]
    have hlt : i.toNat < i.toNat + 1 := Nat.lt_succ_self _
    cases hds : natDigs i.toNat with
    | nil => exact absurd hds (natDigsGo_ne_nil hlt)
    | cons c tail =>
      have hc : isDigitCh c = true :=
        natDigsGo_all_digits _ _ hlt c
          (by rw [show natDigsGo (i.toNat + 1) i.toNat = natDigs i.toNat from rfl, hds]; simp)
      have hfull := parseDigitsStrict_natDigs i.toNat rest hrest
      rw [hds] at hfull
      simp only [List.cons_append] at hfull ⊢
      rw [parseNumber.eq_def]
      split
      · rename_i heq
        exfalso
        simp only [List.cons.injEq] at heq
        exact (isDigitCh_ne_chars hc).1 heq.1
      · rw [hfull]
        simp only [Option.map_some']
        congr 2
        omega



/-! ### Codec lemmas: JSON string escaping -/

theorem parseJStringAux_escape :
    ∀ (cs rest : List Char),
      parseJStringAux (cs.flatMap escapeChar ++ '"' :: rest) = some (cs, rest) := by
  intro cs
  induction cs with
  | nil =>
    intro rest
    simp only [List.flatMap_nil, List.nil_append]
    rw [parseJStringAux.eq_def]
    dsimp only
    rw [if_pos rfl]
  | cons c cs ih =>
    intro rest
    simp only [List.flatMap_cons, List.append_assoc]
    rw [escapeChar]
    by_cases h1 : c = '"'
    · subst h1
      rw [if_pos rfl]
      simp only [List.cons_append, List.nil_append]
      rw [parseJStringAux.eq_def]
      dsimp only
      rw [if_neg (by decide), if_pos rfl, if_pos rfl, ih]
      rfl
    · rw [if_neg h1]
      by_cases h2 : c = '\\'
      · subst h2
        rw [if_pos rfl]
        simp only [List.cons_append, List.nil_append]
        rw [parseJStringAux.eq_def]
        dsimp only
        rw [if_neg (by decide), if_pos rfl, if_neg (by decide), if_pos rfl, ih]
        rfl
      · rw [if_neg h2]
        by_cases h3 : c = Char.ofNat 8
        · subst h3
          rw [if_pos rfl]
          simp only [List.cons_append, List.nil_append]
          rw [parseJStringAux.eq_def]
          dsimp only
          rw [if_neg (by decide), if_pos rfl, if_neg (by decide), if_neg (by decide),
            if_neg (by decide), if_pos rfl, ih]
          rfl
        · rw [if_neg h3]
          by_cases h4 : c = Char.ofNat 9
          · subst h4
            rw [if_pos rfl]
            simp only [List.cons_append, List.nil_append]
            rw [parseJStringAux.eq_def]
            dsimp only
            rw [if_neg (by decide), if_pos rfl, if_neg (by decide), if_neg (by decide),
              if_neg (by decide), if_neg (by decide), if_pos rfl, ih]
            rfl
          · rw [if_neg h4]
            by_cases h5 : c = Char.ofNat 10
            · subst h5
              rw [if_pos rfl]
              simp only [List.cons_append, List.nil_append]
              rw [parseJStringAux.eq_def]
              dsimp only
              rw [if_neg (by decide), if_pos rfl, if_neg (by decide), if_neg (by decide),
                if_neg (by decide), if_neg (by decide), if_neg (by decide), if_pos rfl, ih]
              rfl
            · rw [if_neg h5]
              by_cases h6 : c = Char.ofNat 12
              · subst h6
                rw [if_pos rfl]
                simp only [List.cons_append, List.nil_append]
                rw [parseJStringAux.eq_def]
                dsimp only
                rw [if_neg (by decide), if_pos rfl, if_neg (by decide), if_neg (by decide),
                  if_neg (by decide), if_neg (by decide), if_neg (by decide),
                  if_neg (by decide), if_pos rfl, ih]
                rfl
              · rw [if_neg h6]
                by_cases h7 : c = Char.ofNat 13
                · subst h7
                  rw [if_pos rfl]
                  simp only [List.cons_append, List.nil_append]
                  rw [parseJStringAux.eq_def]
                  dsimp only
                  rw [if_neg (by decide), if_pos rfl, if_neg (by decide), if_neg (by decide),
                    if_neg (by decide), if_neg (by decide), if_neg (by decide),
                    if_neg (by decide), if_neg (by decide), if_pos rfl, ih]
                  rfl
                · rw [if_neg h7]
                  by_cases h8 : c.toNat < 32
                  · rw [if_pos h8]
                    have hd1 := hexDigitVal_hexDigitChar (show c.toNat / 16 < 16 by omega)
                    have hd2 := hexDigitVal_hexDigitChar (show c.toNat % 16 < 16 by omega)
                    simp only [List.cons_append, List.nil_append]
                    rw [parseJStringAux.eq_def]
                    dsimp only
                    rw [if_neg (by decide), if_pos rfl, if_neg (by decide), if_neg (by decide),
                      if_neg (by decide), if_neg (by decide), if_neg (by decide),
                      if_neg (by decide), if_neg (by decide), if_neg (by decide), if_pos rfl]
                    rw [show hexDigitVal '0' = some 0 from by decide]
                    rw [hd1, hd2]
                    dsimp only
                    rw [show 0 * 4096 + 0 * 256 + c.toNat / 16 * 16 + c.toNat % 16 = c.toNat
                      from by omega]
                    rw [if_pos (Or.inl (by omega)), Char.ofNat_toNat, ih]
                    rfl
                  · rw [if_neg h8]
                    simp only [List.cons_append, List.nil_append]
                    rw [parseJStringAux.eq_def]
                    dsimp only
                    rw [if_neg h1, if_neg h2, if_neg (by simpa using h8), ih]
                    rfl



/-! ### Codec lemmas: scalar values -/

theorem take_cons_ne (c : Char) (X : List Char) (d : Char) (ds : List Char) (n : Nat)
    (h : c ≠ d) : ¬ (c :: X).take n = d :: ds := by
  cases n with
  | zero => simp
  | succ n => simp [List.take_succ_cons, h]

theorem intDigs_head (i : Int) :
    ∃ c tail, intDigs i = c :: tail ∧ (c = '-' ∨ isDigitCh c = true) := by
  by_cases hneg : i < 0
  · exact ⟨'-', _, by rw [intDigs, if_pos hneg], Or.inl rfl⟩
  · rw [intDigs, if_neg hneg]
    cases hds : natDigs i.toNat with
    | nil => exact absurd hds (natDigsGo_ne_nil (Nat.lt_succ_self _))
    | cons c tail =>
      refine ⟨c, tail, rfl, Or.inr ?_⟩
      exact natDigsGo_all_digits _ _ (Nat.lt_succ_self _) c
        (by rw [show natDigsGo (i.toNat + 1) i.toNat = natDigs i.toNat from rfl, hds]; simp)

theorem parseJval_printJval (v : Jval) (rest : List Char) (hrest : nonDigitStart rest) :
    parseJval (printJval v ++ rest) = some (v, rest) := by
  cases v with
  | jnull =>
    have ht : ((['n', 'u', 'l', 'l'] : List Char) ++ rest).take 4 = ['n', 'u', 'l', 'l'] :=
      List.take_left' (by simp)
    have hd : ((['n', 'u', 'l', 'l'] : List Char) ++ rest).drop 4 = rest :=
      List.drop_left' (by simp)
    show parseJval (['n', 'u', 'l', 'l'] ++ rest) = some (.jnull, rest)
    rw [parseJval, ht, hd, if_pos rfl]
  | jbool b =>
    cases b
    · have ht : ((['f', 'a', 'l', 's', 'e'] : List Char) ++ rest).take 4 =
          ['f', 'a', 'l', 's'] := by
        rw [List.take_append_of_le_length (by simp)]
        decide
      have ht5 : ((['f', 'a', 'l', 's', 'e'] : List Char) ++ rest).take 5 =
          ['f', 'a', 'l', 's', 'e'] := List.take_left' (by simp)
      have hd : ((['f', 'a', 'l', 's', 'e'] : List Char) ++ rest).drop 5 = rest :=
        List.drop_left' (by simp)
      show parseJval (['f', 'a', 'l', 's', 'e'] ++ rest) = some (.jbool false, rest)
      rw [parseJval, ht, ht5, hd, if_neg (by decide), if_neg (by decide), if_pos rfl]
    · have ht : ((['t', 'r', 'u', 'e'] : List Char) ++ rest).take 4 = ['t', 'r', 'u', 'e'] :=
        List.take_left' (by simp)
      have hd : ((['t', 'r', 'u', 'e'] : List Char) ++ rest).drop 4 = rest :=
        List.drop_left' (by simp)
      show parseJval (['t', 'r', 'u', 'e'] ++ rest) = some (.jbool true, rest)
      rw [parseJval, ht, hd, if_neg (by decide), if_pos rfl]
  | jnum i =>
    obtain ⟨c, tail, hds, hc⟩ := intDigs_head i
    have hcne : c ≠ 'n' ∧ c ≠ 't' ∧ c ≠ 'f' ∧ c ≠ '"' := by
      rcases hc with rfl | hc
      · exact ⟨by decide, by decide, by decide, by decide⟩
      · obtain ⟨-, h1, h2, h3, h4⟩ := isDigitCh_ne_chars hc
        exact ⟨h1, h2, h3, h4⟩
    show parseJval (intDigs i ++ rest) = some (.jnum i, rest)
    have hnum := parseNumber_intDigs i rest hrest
    rw [hds] at hnum ⊢
    simp only [List.cons_append] at hnum ⊢
    rw [parseJval, if_neg (take_cons_ne _ _ _ _ _ hcne.1),
      if_neg (take_cons_ne _ _ _ _ _ hcne.2.1), if_neg (take_cons_ne _ _ _ _ _ hcne.2.2.1),
      if_neg (take_cons_ne _ _ _ _ _ hcne.2.2.2), hnum]
    rfl
  | jstr s =>
    show parseJval (('"' :: (s.data.flatMap escapeChar ++ ['"'])) ++ rest) = some (.jstr s, rest)
    simp only [List.cons_append]
    rw [parseJval, if_neg (take_cons_ne _ _ _ _ _ (by decide)),
      if_neg (take_cons_ne _ _ _ _ _ (by decide)),
      if_neg (take_cons_ne _ _ _ _ _ (by decide)),
      if_pos (by rfl)]
    simp only [List.drop_succ_cons, List.drop_zero, List.append_assoc, List.singleton_append]
    rw [parseJStringAux_escape]
    rfl

/-! ### Codec lemmas: records -/

theorem parseMembers_mono :
    ∀ (fuel : Nat) (cs : List Char) (r : List (String × Jval) × List Char),
      parseMembers fuel cs = some r →
      ∀ fuel', fuel ≤ fuel' → parseMembers fuel' cs = some r := by
  intro fuel
  induction fuel with
  | zero => intro cs r h; simp [parseMembers] at h
  | succ fuel ih =>
    intro cs r h fuel' hle
    obtain ⟨g, rfl⟩ : ∃ g, fuel' = g + 1 := ⟨fuel' - 1, by omega⟩
    rw [parseMembers] at h ⊢
    by_cases h1 : cs.take 1 = ['"']
    · rw [if_pos h1] at h ⊢
      split at h
      · exact absurd h (by simp)
      · rename_i key rest2 heq
        by_cases h2 : rest2.take 1 = [':']
        · rw [if_pos h2] at h ⊢
          split at h
          · exact absurd h (by simp)
          · rename_i v rest4 heq2
            by_cases h3 : rest4.take 1 = [',']
            · rw [if_pos h3] at h ⊢
              obtain ⟨p', hp', hout⟩ := Option.map_eq_some'.mp h
              rw [ih _ _ hp' g (by omega)]
              simpa using hout
            · rw [if_neg h3] at h ⊢
              exact h
        · rw [if_neg h2] at h ⊢
          exact h
    · rw [if_neg h1] at h
      exact absurd h (by simp)

theorem parseMembers_step_comma (k : String) (v : Jval) (A2 : List Char) (fuel : Nat) :
    parseMembers (fuel + 1) (printJString k ++ ':' :: printJval v ++ ',' :: A2) =
      (parseMembers fuel A2).map (fun p => ((k, v) :: p.1, p.2)) := by
  rw [parseMembers]
  rw [show printJString k ++ ':' :: printJval v ++ ',' :: A2 =
    '"' :: (k.data.flatMap escapeChar ++ '"' :: (':' :: (printJval v ++ ',' :: A2))) from by
      simp [printJString]]
  rw [if_pos (by rfl)]
  simp only [List.drop_succ_cons, List.drop_zero]
  rw [parseJStringAux_escape]
  dsimp only
  rw [if_pos (by rfl)]
  simp only [List.drop_succ_cons, List.drop_zero]
  rw [parseJval_printJval v (',' :: A2) (Or.inr ⟨',', A2, rfl, by decide⟩)]
  dsimp only
  rw [if_pos (by rfl)]
  simp only [List.drop_succ_cons, List.drop_zero]

theorem parseMembers_step_close (k : String) (v : Jval) (fuel : Nat) :
    parseMembers (fuel + 1) (printJString k ++ ':' :: printJval v ++ ['\x7d']) =
      some ([(k, v)], []) := by
  rw [parseMembers]
  rw [show printJString k ++ ':' :: printJval v ++ ['\x7d'] =
    '"' :: (k.data.flatMap escapeChar ++ '"' :: (':' :: (printJval v ++ ['\x7d']))) from by
      simp [printJString]]
  rw [if_pos (by rfl)]
  simp only [List.drop_succ_cons, List.drop_zero]
  rw [parseJStringAux_escape]
  dsimp only
  rw [if_pos (by rfl)]
  simp only [List.drop_succ_cons, List.drop_zero]
  rw [parseJval_printJval v ['\x7d'] (Or.inr ⟨'\x7d', [], rfl, by decide⟩)]
  dsimp only
  rw [if_neg (by decide), if_pos (by rfl)]
  simp only [List.drop_succ_cons, List.drop_zero]

theorem parseMembers_cursor (f : String) (v : Jval) (op : String) :
    parseMembers 3
      (printJString "field" ++ ':' :: printJval (.jstr f) ++
        ',' :: (printJString "value" ++ ':' :: printJval v ++
        ',' :: (printJString "operator" ++ ':' :: printJval (.jstr op) ++ ['\x7d']))) =
      some ([("field", .jstr f), ("value", v), ("operator", .jstr op)], []) := by
  rw [show (3 : Nat) = 2 + 1 from rfl, parseMembers_step_comma,
    show (2 : Nat) = 1 + 1 from rfl, parseMembers_step_comma,
    show (1 : Nat) = 0 + 1 from rfl, parseMembers_step_close]
  rfl


end Mcp
namespace Mcp

/-! ### Codec lemmas: top level, UTF-8 and base64 -/

theorem parseRecord_cursorChunk (f : String) (v : Jval) (op : String) :
    parseRecord (printJString "field" ++ ':' :: printJval (.jstr f) ++
      ',' :: (printJString "value" ++ ':' :: printJval v ++
      ',' :: (printJString "operator" ++ ':' :: printJval (.jstr op) ++ ['\x7d']))) =
      some ([("field", .jstr f), ("value", v), ("operator", .jstr op)], []) := by
  have hch : (printJString "field" ++ ':' :: printJval (.jstr f) ++
      ',' :: (printJString "value" ++ ':' :: printJval v ++
      ',' :: (printJString "operator" ++ ':' :: printJval (.jstr op) ++ ['\x7d']))).take 1 =
      ['"'] := by
    rw [printJString]
    rfl
  have hlen : 3 ≤ (printJString "field" ++ ':' :: printJval (.jstr f) ++
      ',' :: (printJString "value" ++ ':' :: printJval v ++
      ',' :: (printJString "operator" ++ ':' :: printJval (.jstr op) ++ ['\x7d']))).length + 1 := by
    rw [printJString]
    simp only [List.cons_append, List.length_cons, List.length_append]
    omega
  rw [parseRecord, if_neg (by rw [hch]; decide),
    parseMembers_mono 3 _ _ (parseMembers_cursor f v op) _ hlen]

theorem parseJsonTop_printCursorObj (f : String) (v : Jval) (op : String) :
    parseJsonTop (printCursorObj f v op) =
      some (.record [("field", .jstr f), ("value", v), ("operator", .jstr op)]) := by
  have hflat : printCursorObj f v op =
      '\x7b' :: (printJString "field" ++ ':' :: printJval (.jstr f) ++
        ',' :: (printJString "value" ++ ':' :: printJval v ++
        ',' :: (printJString "operator" ++ ':' :: printJval (.jstr op) ++ ['\x7d']))) := by
    rw [printCursorObj]
    simp [List.cons_append, List.append_assoc]
  rw [hflat, parseJsonTop, if_pos (by rfl)]
  simp only [List.drop_succ_cons, List.drop_zero]
  rw [parseRecord_cursorChunk]
  rfl

theorem utf8EncChar_ne_nil (c : Char) : utf8EncChar c ≠ [] := by
  rw [utf8EncChar]
  split
  · simp
  · split
    · simp
    · split
      · simp
      · simp

theorem utf8DecodeChar_enc (c : Char) (bs : List Nat) :
    utf8DecodeChar (utf8EncChar c ++ bs) = some (c, bs) := by
  have hv : Nat.isValidChar c.toNat := c.valid
  have hlt : c.toNat < 1114112 := by rcases hv with h | ⟨h1, h2⟩ <;> omega
  rw [utf8EncChar]
  by_cases h1 : c.toNat < 128
  · rw [if_pos h1]
    simp only [List.cons_append, List.nil_append]
    rw [utf8DecodeChar.eq_def]
    dsimp only
    rw [if_pos h1, Char.ofNat_toNat]
  · rw [if_neg h1]
    by_cases h2 : c.toNat < 2048
    · rw [if_pos h2]
      simp only [List.cons_append, List.nil_append]
      rw [utf8DecodeChar.eq_def]
      dsimp only
      rw [if_neg (by omega), if_neg (by omega), if_pos (by omega)]
      rw [if_pos ⟨by omega, by omega⟩,
        show (192 + c.toNat / 64 - 192) * 64 + (128 + c.toNat % 64 - 128) = c.toNat from by
          omega,
        if_pos (by omega), Char.ofNat_toNat]
    · rw [if_neg h2]
      by_cases h3 : c.toNat < 65536
      · rw [if_pos h3]
        have hsur : c.toNat < 55296 ∨ 57343 < c.toNat := by
          rcases hv with h | ⟨ha, hb⟩
          · exact Or.inl h
          · exact Or.inr ha
        simp only [List.cons_append, List.nil_append]
        rw [utf8DecodeChar.eq_def]
        dsimp only
        rw [if_neg (by omega), if_neg (by omega), if_neg (by omega), if_pos (by omega)]
        rw [if_pos ⟨by omega, by omega, by omega, by omega⟩,
          show (224 + c.toNat / 4096 - 224) * 4096 + (128 + c.toNat / 64 % 64 - 128) * 64 +
            (128 + c.toNat % 64 - 128) = c.toNat from by omega,
          if_pos ⟨by omega, hsur⟩, Char.ofNat_toNat]
      · rw [if_neg h3]
        simp only [List.cons_append, List.nil_append]
        rw [utf8DecodeChar.eq_def]
        dsimp only
        rw [if_neg (by omega), if_neg (by omega), if_neg (by omega), if_neg (by omega),
          if_pos (by omega)]
        rw [if_pos ⟨by omega, by omega, by omega, by omega, by omega, by omega⟩,
          show (240 + c.toNat / 262144 - 240) * 262144 +
            (128 + c.toNat / 4096 % 64 - 128) * 4096 + (128 + c.toNat / 64 % 64 - 128) * 64 +
            (128 + c.toNat % 64 - 128) = c.toNat from by omega,
          if_pos ⟨by omega, by omega⟩, Char.ofNat_toNat]

theorem utf8DecodeGo_encode :
    ∀ (cs : List Char) (fuel : Nat), (utf8Encode cs).length ≤ fuel →
      utf8DecodeGo fuel (utf8Encode cs) = some cs := by
  intro cs
  induction cs with
  | nil =>
    intro fuel _
    cases fuel <;> rfl
  | cons c cs ih =>
    intro fuel hfuel
    have hchar := utf8DecodeChar_enc c (utf8Encode cs)
    rw [utf8Encode, List.flatMap_cons,
      show cs.flatMap utf8EncChar = utf8Encode cs from rfl] at hfuel ⊢
    cases henc : utf8EncChar c with
    | nil => exact absurd henc (utf8EncChar_ne_nil c)
    | cons x xs =>
      rw [henc] at hfuel
      simp only [List.cons_append, List.length_cons, List.length_append] at hfuel
      simp only [List.cons_append]
      obtain ⟨g, rfl⟩ : ∃ g, fuel = g + 1 := ⟨fuel - 1, by omega⟩
      rw [utf8DecodeGo]
      rw [henc] at hchar
      simp only [List.cons_append] at hchar
      rw [hchar]
      dsimp only
      rw [ih g (by omega)]
      rfl

theorem utf8Decode_encode (cs : List Char) : utf8Decode (utf8Encode cs) = some cs :=
  utf8DecodeGo_encode cs (utf8Encode cs).length le_rfl

theorem utf8Encode_bytes_lt (cs : List Char) : ∀ b ∈ utf8Encode cs, b < 256 := by
  intro b hb
  simp only [utf8Encode, List.mem_flatMap] at hb
  obtain ⟨c, -, hb⟩ := hb
  have hv : Nat.isValidChar c.toNat := c.valid
  have hlt : c.toNat < 1114112 := by rcases hv with h | ⟨h1, h2⟩ <;> omega
  rw [utf8EncChar] at hb
  split at hb
  · simp only [List.mem_singleton] at hb
    omega
  · split at hb
    · simp only [List.mem_cons, List.mem_singleton] at hb
      rcases hb with rfl | rfl | h
      · omega
      · omega
      · simp at h
    · split at hb
      · simp only [List.mem_cons, List.mem_singleton] at hb
        rcases hb with rfl | rfl | rfl | h
        · omega
        · omega
        · omega
        · simp at h
      · simp only [List.mem_cons, List.mem_singleton] at hb
        rcases hb with rfl | rfl | rfl | rfl | h
        · omega
        · omega
        · omega
        · omega
        · simp at h

theorem b64Val_b64Char {n : Nat} (h : n < 64) : b64Val (b64Char n) = some n := by
  have hall : ∀ m < 64, b64Val (b64Char m) = some m := by decide
  exact hall n h

theorem b64Char_ne_eq (n : Nat) : b64Char n ≠ '=' := by
  by_cases h : n < 64
  · have hall : ∀ m < 64, b64Char m ≠ '=' := by decide
    exact hall n h
  · rw [b64Char, List.getD_eq_default]
    · decide
    · have : base64Chars.length = 64 := rfl
      omega

theorem base64Decode_encode :
    ∀ bs : List Nat, (∀ b ∈ bs, b < 256) → base64Decode (base64Encode bs) = some bs := by
  intro bs
  induction bs using base64Encode.induct with
  | case1 => intro _; rfl
  | case2 a =>
    intro h
    have ha : a < 256 := h a (by simp)
    rw [base64Encode, base64Decode,
      b64Val_b64Char (show a / 4 < 64 by omega),
      b64Val_b64Char (show a % 4 * 16 < 64 by omega)]
    dsimp only
    rw [if_pos rfl, if_pos ⟨rfl, rfl⟩]
    congr 2
    omega
  | case3 a b =>
    intro h
    have ha : a < 256 := h a (by simp)
    have hb : b < 256 := h b (by simp)
    rw [base64Encode, base64Decode,
      b64Val_b64Char (show a / 4 < 64 by omega),
      b64Val_b64Char (show a % 4 * 16 + b / 16 < 64 by omega)]
    dsimp only
    rw [if_neg (b64Char_ne_eq _), b64Val_b64Char (show b % 16 * 4 < 64 by omega)]
    dsimp only
    rw [if_pos rfl, if_pos rfl]
    congr 3
    · omega
    · omega
  | case4 a b c rest ih =>
    intro h
    have ha : a < 256 := h a (by simp)
    have hb : b < 256 := h b (by simp)
    have hc : c < 256 := h c (by simp)
    rw [base64Encode, base64Decode,
      b64Val_b64Char (show a / 4 < 64 by omega),
      b64Val_b64Char (show a % 4 * 16 + b / 16 < 64 by omega)]
    dsimp only
    rw [if_neg (b64Char_ne_eq _),
      b64Val_b64Char (show b % 16 * 4 + c / 64 < 64 by omega)]
    dsimp only
    rw [if_neg (b64Char_ne_eq _), b64Val_b64Char (show c % 64 < 64 by omega)]
    dsimp only
    rw [ih (fun x hx => h x (by simp [hx]))]
    simp only [Option.map_some']
    congr 4
    · omega
    · omega
    · omega

/-! ### Claim C2 — cursor codec round trip -/

/-- C2: for every field name, every embedded serializable scalar value and
every comparison operator in the supported set, decoding the token produced
by the cursor encoder yields exactly the record
`{field, value, operator}`. -/
theorem C2_cursor_codec_roundtrip (f : String) (v : Jval) (op : String)
    (hop : op = ">" ∨ op = ">=" ∨ op = "<" ∨ op = "<=") :
    decodeCursorJson (encodeCursorToken f v op) =
      some (.record [("field", .jstr f), ("value", v), ("operator", .jstr op)]) := by
  rw [decodeCursorJson, encodeCursorToken]
  rw [show (⟨base64Encode (utf8Encode (printCursorObj f v op))⟩ : String).data =
    base64Encode (utf8Encode (printCursorObj f v op)) from rfl]
  rw [base64Decode_encode _ (utf8Encode_bytes_lt _)]
  dsimp only
  rw [utf8Decode_encode]
  dsimp only
  exact parseJsonTop_printCursorObj f v op

theorem C2_cursor_codec_roundtrip_witness :
    ((">" : String) = ">" ∨ (">" : String) = ">=" ∨ (">" : String) = "<" ∨
      (">" : String) = "<=") ∧
    decodeCursorJson (encodeCursorToken "id" (.jnum 2) ">") =
      some (.record [("field", .jstr "id"), ("value", .jnum 2), ("operator", .jstr ">")]) :=
  ⟨Or.inl rfl, C2_cursor_codec_roundtrip "id" (.jnum 2) ">" (Or.inl rfl)⟩

end Mcp
namespace Mcp

/-! ### Lemmas about the pagination models -/

theorem generateNextCursor_isSome (row : Row) (f : String) (hf : f ≠ "") :
    (generateNextCursor (some row) f).isSome = true ↔ ∃ v, jlookup row f = some v := by
  cases hjv : jlookup row f <;> simp [generateNextCursor, hf, hjv]

theorem heapGet_append_lt (h : Heap) (x : Params) (i : Nat) (hi : i < h.length) :
    heapGet (h ++ [x]) i = heapGet h i := by
  unfold heapGet
  rw [List.drop_append_eq_append_drop]
  have hlen : 0 < (h.drop i).length := by simp; omega
  cases hd : h.drop i with
  | nil => rw [hd] at hlen; simp at hlen
  | cons a t => simp [hd]

theorem heapGet_heapSet_ne (h : Heap) (i j : Nat) (p : Params) (hij : i ≠ j) :
    heapGet (heapSet h i p) j = heapGet h j := by
  induction h generalizing i j with
  | nil => rfl
  | cons q rest ih =>
    cases i with
    | zero =>
      cases j with
      | zero => exact absurd rfl hij
      | succ j' => rfl
    | succ i' =>
      cases j with
      | zero => rfl
      | succ j' =>
        show heapGet (heapSet rest i' p) j' = heapGet rest j'
        exact ih i' j' (by omega)

theorem heapGet_heapSet_self (h : Heap) (i : Nat) (p : Params) (hi : i < h.length) :
    heapGet (heapSet h i p) i = p := by
  induction h generalizing i with
  | nil => simp at hi
  | cons q rest ih =>
    cases i with
    | zero => rfl
    | succ i' =>
      show heapGet (heapSet rest i' p) i' = p
      exact ih i' (by simpa using hi)

theorem applyCursor_snd (dec : String → Option Json) (s : List Char)
    (p : Params) (tok : String) :
    (applyCursor dec s p tok).2 = p ∨
      ∃ k v, (applyCursor dec s p tok).2 = setObjKey p k v := by
  cases hdec : dec tok with
  | none => exact Or.inl (by simp [applyCursor, hdec])
  | some j =>
    cases j with
    | scalar w => exact Or.inl (by simp [applyCursor, hdec])
    | record ms =>
      cases hf : jlookup ms "field" with
      | none => exact Or.inl (by simp [applyCursor, hdec, hf])
      | some fv =>
        cases hv : jlookup ms "value" with
        | none => exact Or.inl (by simp [applyCursor, hdec, hf, hv])
        | some v =>
          cases fv with
          | jnull => exact Or.inl (by simp [applyCursor, hdec, hf, hv, jtruthy])
          | jbool b => exact Or.inl (by cases b <;> simp [applyCursor, hdec, hf, hv, jtruthy])
          | jnum i => exact Or.inl (by simp [applyCursor, hdec, hf, hv])
          | jstr f =>
            by_cases hfe : f = ""
            · subst hfe
              exact Or.inl (by simp [applyCursor, hdec, hf, hv, jtruthy])
            · refine Or.inr ⟨cursorParamName f, v, ?_⟩
              simp [applyCursor, hdec, hf, hv, jtruthy, hfe]

theorem applyCursor_of_not_applies (dec : String → Option Json)
    (s : List Char) (p : Params) (tok : String)
    (h : cursorApplies dec tok = false) : applyCursor dec s p tok = (s, p) := by
  cases hdec : dec tok with
  | none => simp [applyCursor, hdec]
  | some j =>
    cases j with
    | scalar w => simp [applyCursor, hdec]
    | record ms =>
      cases hf : jlookup ms "field" with
      | none => simp [applyCursor, hdec, hf]
      | some fv =>
        cases hv : jlookup ms "value" with
        | none => simp [applyCursor, hdec, hf, hv]
        | some v =>
          cases fv with
          | jnull => simp [applyCursor, hdec, hf, hv, jtruthy]
          | jbool b => cases b <;> simp [applyCursor, hdec, hf, hv, jtruthy]
          | jnum i => simp [applyCursor, hdec, hf, hv]
          | jstr f =>
            have hc : cursorApplies dec tok = decide (f ≠ "") := by
              simp [cursorApplies, hdec, hf, hv]
            rw [hc] at h
            simp only [decide_eq_false_iff_not, ne_eq, not_not] at h
            subst h
            simp [applyCursor, hdec, hf, hv, jtruthy]

theorem paginateQueryD_params (dec : String → Option Json)
    (ef : List Char → Option String) (sql : String) (cf : Option String)
    (ps : Nat) (cur : Option String) (params : Params) (dcf : String) :
    (paginateQueryD dec ef sql cf ps cur params dcf).parameters = params ∨
      ∃ k v, (paginateQueryD dec ef sql cf ps cur params dcf).parameters =
        setObjKey params k v := by
  unfold paginateQueryD
  cases cur with
  | none => exact Or.inl rfl
  | some tok =>
    by_cases ht : tok = ""
    · subst ht; simp
    · simp only [ne_eq, ht, not_false_eq_true, if_true]
      exact applyCursor_snd dec _ _ _

theorem paginateQuery_params (ef : List Char → Option String) (sql : String)
    (cf : Option String) (ps : Nat) (cur : Option String) (params : Params)
    (dcf : String) :
    (paginateQuery ef sql cf ps cur params dcf).parameters = params ∨
      ∃ k v, (paginateQuery ef sql cf ps cur params dcf).parameters =
        setObjKey params k v :=
  paginateQueryD_params decodeCursorJson ef sql cf ps cur params dcf

/-! ### Substring decomposition across an append -/

theorem infix_append_cases {α : Type} (nd a b : List α) (h : nd <:+: a ++ b) :
    nd <:+: a ∨ nd <:+: b ∨ ∃ x, x ∈ nd ∧ b.head? = some x := by
  obtain ⟨s, t, hst⟩ := h
  by_cases h1 : s.length + nd.length ≤ a.length
  · left
    have hA : a = (s ++ (nd ++ t)).take a.length := by
      rw [← List.append_assoc, hst, List.take_left]
    have h0 : (s ++ (nd ++ t)).take a.length =
        s ++ (nd ++ t.take (a.length - s.length - nd.length)) := by
      rw [List.take_append_eq_append_take, List.take_of_length_le (by omega),
        List.take_append_eq_append_take, List.take_of_length_le (by omega)]
    exact ⟨s, t.take (a.length - s.length - nd.length),
      by rw [List.append_assoc, ← h0]; exact hA.symm⟩
  · by_cases h2 : a.length ≤ s.length
    · right; left
      have hB : b = (s ++ (nd ++ t)).drop a.length := by
        rw [← List.append_assoc, hst, List.drop_left]
      have h0 : (s ++ (nd ++ t)).drop a.length = s.drop a.length ++ (nd ++ t) := by
        rw [List.drop_append_eq_append_drop, Nat.sub_eq_zero_of_le h2,
          List.drop_zero]
      exact ⟨s.drop a.length, t, by rw [List.append_assoc, ← h0]; exact hB.symm⟩
    · right; right
      have hblen : 0 < b.length := by
        have hlen := congrArg List.length hst
        simp only [List.length_append] at hlen
        omega
      obtain ⟨x, b', hb⟩ : ∃ x b', b = x :: b' := by
        cases b with
        | nil => simp at hblen
        | cons x b' => exact ⟨x, b', rfl⟩
      subst hb
      refine ⟨x, ?_, by simp⟩
      have hC : nd ++ t = (a ++ x :: b').drop s.length := by
        rw [← hst, List.append_assoc, List.drop_left]
      have hD : (a ++ x :: b').drop s.length = a.drop s.length ++ x :: b' := by
        rw [List.drop_append_eq_append_drop, Nat.sub_eq_zero_of_le (by omega),
          List.drop_zero]
      have hnd : nd = (a.drop s.length ++ x :: b').take nd.length := by
        rw [← hD, ← hC, List.take_left]
      rw [List.take_append_eq_append_take] at hnd
      obtain ⟨m, hm2⟩ : ∃ m, nd.length - (a.drop s.length).length = m + 1 :=
        ⟨nd.length - (a.drop s.length).length - 1,
          by simp only [List.length_drop]; omega⟩
      rw [hm2, List.take_succ_cons] at hnd
      rw [hnd]
      exact List.mem_append_right _ (List.mem_cons_self _ _)

theorem not_infix_append_space (nd a t : List Char) (hs : (' ' : Char) ∉ nd)
    (ha : ¬ nd <:+: a) (hb : ¬ nd <:+: (' ' :: t)) : ¬ nd <:+: a ++ ' ' :: t := by
  intro h
  rcases infix_append_cases nd a (' ' :: t) h with h1 | h1 | ⟨x, hx, hh⟩
  · exact ha h1
  · exact hb h1
  · simp only [List.head?_cons, Option.some.injEq] at hh
    subst hh
    exact hs hx

theorem trimStr_data_infix_self (s : String) : (trimStr s).data <:+: s.data := by
  unfold trimStr
  show ((s.data.dropWhile isWsChar).reverse.dropWhile isWsChar).reverse <:+: s.data
  have h1 : s.data.dropWhile isWsChar <:+ s.data := List.dropWhile_suffix _
  have h2 : (s.data.dropWhile isWsChar).reverse.dropWhile isWsChar <:+
      (s.data.dropWhile isWsChar).reverse := List.dropWhile_suffix _
  have h3 : ((s.data.dropWhile isWsChar).reverse.dropWhile isWsChar).reverse <+:
      (s.data.dropWhile isWsChar) := by
    rw [← List.reverse_suffix]
    simpa using h2
  exact h3.isInfix.trans h1.isInfix

theorem lowerList_infix_mono {l1 l2 : List Char} (h : l1 <:+: l2) :
    lowerList l1 <:+: lowerList l2 := by
  obtain ⟨s, t, hst⟩ := h
  exact ⟨lowerList s, lowerList t, by rw [← hst]; simp [lowerList]⟩

theorem containsList_eq_false (hay nd : List Char) :
    containsList hay nd = false ↔ ¬ nd <:+: hay := by
  simp [containsList]

/-! ### Claim C1 — hasMore and nextCursor in the pagination metadata -/

/-- Claim C1 (counterexample): the spec says `hasMore ⇔ returnedRows ≥
pageSize`, but the handler sets `hasMore = !!nextCursor`, and
`generateNextCursor` returns `null` when the cursor field is missing from
the last row: a full page of rows lacking the cursor field reports
`hasMore = false` with `returnedRows ≥ pageSize`. -/
theorem C1_counterexample :
    1 ≤ (paginatedMeta [[("x", Jval.jnum 1)]] 1 none "id").returnedRows ∧
      (paginatedMeta [[("x", Jval.jnum 1)]] 1 none "id").hasMore = false := by
  constructor
  · decide
  · decide

/-- Claim C1 (amended): with a positive page size and a nonempty cursor
field, `hasMore` is true iff a full page was returned AND the last row
carries the cursor field; `nextCursor` is present iff `hasMore` is true
(the second half of the claim is exactly the handler's
`hasMore: !!nextCursor`). -/
theorem C1_hasMore_nextCursor (recordset : List Row) (pageSize : Nat)
    (cursorArg : Option String) (f : String) (hp : 1 ≤ pageSize) (hf : f ≠ "") :
    ((paginatedMeta recordset pageSize cursorArg f).hasMore = true ↔
      pageSize ≤ recordset.length ∧
        ∃ r v, recordset.getLast? = some r ∧ jlookup r f = some v) ∧
    ((paginatedMeta recordset pageSize cursorArg f).nextCursor.isSome =
      (paginatedMeta recordset pageSize cursorArg f).hasMore) := by
  refine ⟨?_, rfl⟩
  show (if 0 < recordset.length then
      if pageSize ≤ recordset.length then
        generateNextCursor recordset.getLast? f
      else none
    else none).isSome = true ↔ _
  by_cases h1 : 0 < recordset.length
  · rw [if_pos h1]
    by_cases h2 : pageSize ≤ recordset.length
    · rw [if_pos h2]
      cases hr : recordset.getLast? with
      | none =>
        rw [List.getLast?_eq_none_iff] at hr
        subst hr
        simp at h1
      | some r =>
        rw [generateNextCursor_isSome r f hf]
        constructor
        · rintro ⟨v, hv⟩
          exact ⟨h2, r, v, rfl, hv⟩
        · rintro ⟨-, r', v, hr', hv⟩
          injection hr' with he
          subst he
          exact ⟨v, hv⟩
    · rw [if_neg h2]
      simp [h2]
  · rw [if_neg h1]
    simp only [Option.isSome_none, Bool.false_eq_true, false_iff, not_and]
    intro hps
    omega

/-- Claim C1 (witness): one full page whose last row carries the cursor
field does report `hasMore = true`. -/
theorem C1_hasMore_nextCursor_witness :
    (paginatedMeta [[("id", Jval.jnum 2)]] 1 none "id").hasMore = true :=
  ((C1_hasMore_nextCursor [[("id", Jval.jnum 2)]] 1 none "id"
      (by decide) (by decide)).1).mpr
    ⟨by decide, [("id", Jval.jnum 2)], Jval.jnum 2, by decide, by decide⟩

/-! ### Claim C3 — the destructive-keyword guard -/

/-- Claim C3 (counterexample): the guard's keywords carry a trailing
space, so the bare statement `delete` — which contains the disallowed
write keyword `delete` — passes the guard of the query-execution tool and
the execution port IS invoked with it. -/
theorem C3_counterexample :
    executeQueryToolModel "delete" = (false, ["delete"]) := by decide

/-- Claim C3 (amended): for every statement containing a disallowed write
keyword FOLLOWED BY A SPACE (`drop `, `delete `, `truncate `, `update `,
`alter `), case-insensitively, all three tool handlers return a validation
error and pass nothing to the execution port.  (A keyword not followed by
a space, e.g. the bare statement `delete`, is not rejected — see the
counterexample.) -/
theorem C3_guard_blocks (ef : List Char → Option String)
    (countT : String → String) (fetch : Nat → List Row) (sql : String)
    (cf : Option String) (ps : Nat) (cur : Option String) (params : Params)
    (ic : Bool) (dcf : String) (bs mr : Nat) (aggs : List AggSpec)
    (h : ∃ kw ∈ prohibitedOperations, strIncludes (lowerStr sql) kw = true) :
    executeQueryToolModel sql = (true, []) ∧
    paginatedQueryToolModel ef countT sql cf ps cur params ic dcf = (true, []) ∧
    queryStreamerToolModel fetch sql bs mr aggs = (true, none) := by
  have hp : sqlProhibited sql = true := by
    rw [sqlProhibited, List.any_eq_true]
    obtain ⟨kw, hkw, hinc⟩ := h
    exact ⟨kw, hkw, hinc⟩
  refine ⟨?_, ?_, ?_⟩
  · rw [executeQueryToolModel, if_pos hp]
  · rw [paginatedQueryToolModel, if_pos hp]
  · rw [queryStreamerToolModel, if_pos hp]

/-- Claim C3 (witness): `DROP TABLE users` is rejected by all three
handlers with no port call. -/
theorem C3_guard_blocks_witness :
    executeQueryToolModel "DROP TABLE users" = (true, []) ∧
    paginatedQueryToolModel (fun _ => none) (fun s => s) "DROP TABLE users"
      none 1 none [] true "id" = (true, []) ∧
    queryStreamerToolModel (fun _ => []) "DROP TABLE users" 100 10 [] =
      (true, none) :=
  C3_guard_blocks (fun _ => none) (fun s => s) (fun _ => []) "DROP TABLE users"
    none 1 none [] true "id" 100 10 [] ⟨"drop ", by decide, by decide⟩

/-! ### Claim C4 — ordering clause and row bound -/

/-- Claim C4 (counterexample): the row bound is skipped whenever the
statement contains `offset` or `fetch` as a bare substring — here inside
the column name `fetch_count` — so a statement with no ordering clause and
`cursorField = "id"` gets the ordering clause but NO row-bound clause. -/
theorem C4_counterexample :
    (paginateQuery (fun _ => none) "SELECT fetch_count FROM t" (some "id") 5
        none [] "id").paginatedSql =
      "SELECT fetch_count FROM t ORDER BY id ASC".data := by decide

/-- Claim C4 (amended): if the statement has no ordering clause and —
additionally — contains neither `offset` nor `fetch` as a case-insensitive
substring, the rewrite appends `ORDER BY id ASC` and the row bound
`OFFSET 0 ROWS FETCH NEXT pageSize ROWS ONLY`. -/
theorem C4_order_and_bound (ef : List Char → Option String) (sql : String)
    (pageSize : Nat) (params : Params) (dcf : String)
    (hno : hasOrderByRe (trimStr sql).data = false)
    (hoff : strIncludes (lowerStr sql) "offset" = false)
    (hfet : strIncludes (lowerStr sql) "fetch" = false) :
    (paginateQuery ef sql (some "id") pageSize none params dcf).paginatedSql =
      (trimStr sql).data ++ " ORDER BY id ASC OFFSET 0 ROWS FETCH NEXT ".data ++
        natDigs pageSize ++ " ROWS ONLY".data := by
  have htrim : ∀ nd : List Char, ¬ nd <:+: lowerList sql.data →
      ¬ nd <:+: lowerList (trimStr sql).data := by
    intro nd hn h
    exact hn (h.trans (lowerList_infix_mono (trimStr_data_infix_self sql)))
  have hoff' : ¬ "offset".data <:+: lowerList sql.data := by
    rw [← containsList_eq_false]
    exact hoff
  have hfet' : ¬ "fetch".data <:+: lowerList sql.data := by
    rw [← containsList_eq_false]
    exact hfet
  unfold paginateQuery paginateQueryD orderByStep
  dsimp only
  rw [hno]
  rw [if_neg (by decide), if_pos (by decide)]
  show addRowBound ((trimStr sql).data ++ " ORDER BY ".data ++ "id".data ++
      " ASC".data) pageSize = _
  have hsplit : (trimStr sql).data ++ " ORDER BY ".data ++ "id".data ++
      " ASC".data = (trimStr sql).data ++ ' ' :: "ORDER BY id ASC".data := by
    simp only [List.append_assoc]
    rfl
  have hlow : lowerList ((trimStr sql).data ++ ' ' :: "ORDER BY id ASC".data) =
      lowerList (trimStr sql).data ++ ' ' :: "order by id asc".data := by
    show ((trimStr sql).data ++ ' ' :: "ORDER BY id ASC".data).map Char.toLower = _
    rw [List.map_append]
    rfl
  have hcond : (containsList (lowerList ((trimStr sql).data ++
        " ORDER BY ".data ++ "id".data ++ " ASC".data)) "offset".data ||
      containsList (lowerList ((trimStr sql).data ++ " ORDER BY ".data ++
        "id".data ++ " ASC".data)) "fetch".data) = false := by
    rw [hsplit, hlow, Bool.or_eq_false_iff]
    constructor
    · rw [containsList_eq_false]
      exact not_infix_append_space _ _ _ (by decide) (htrim _ hoff') (by decide)
    · rw [containsList_eq_false]
      exact not_infix_append_space _ _ _ (by decide) (htrim _ hfet') (by decide)
  rw [addRowBound, if_neg (by rw [hcond]; exact Bool.false_ne_true)]
  calc (trimStr sql).data ++ " ORDER BY ".data ++ "id".data ++ " ASC".data ++
        " OFFSET 0 ROWS FETCH NEXT ".data ++ natDigs pageSize ++
        " ROWS ONLY".data
      = (trimStr sql).data ++ ((" ORDER BY ".data ++ "id".data ++
          " ASC".data ++ " OFFSET 0 ROWS FETCH NEXT ".data) ++
          (natDigs pageSize ++ " ROWS ONLY".data)) := by
        simp only [List.append_assoc]
    _ = (trimStr sql).data ++
          (" ORDER BY id ASC OFFSET 0 ROWS FETCH NEXT ".data ++
          (natDigs pageSize ++ " ROWS ONLY".data)) := by
        rw [show " ORDER BY ".data ++ "id".data ++ " ASC".data ++
            " OFFSET 0 ROWS FETCH NEXT ".data =
            " ORDER BY id ASC OFFSET 0 ROWS FETCH NEXT ".data from by decide]
    _ = (trimStr sql).data ++
          " ORDER BY id ASC OFFSET 0 ROWS FETCH NEXT ".data ++
          natDigs pageSize ++ " ROWS ONLY".data := by
        simp only [List.append_assoc]

/-- Claim C4 (witness): a plain statement gets both the ordering clause
and the row bound. -/
theorem C4_order_and_bound_witness :
    (paginateQuery (fun _ => none) "SELECT a FROM t" (some "id") 5 none []
        "id").paginatedSql =
      (trimStr "SELECT a FROM t").data ++
        " ORDER BY id ASC OFFSET 0 ROWS FETCH NEXT ".data ++ natDigs 5 ++
        " ROWS ONLY".data :=
  C4_order_and_bound (fun _ => none) "SELECT a FROM t" 5 [] "id" (by decide)
    (by decide) (by decide)

/-! ### Claim C5 — undecodable cursors mean first-page semantics -/

/-- Claim C5: however the runtime decode step
`JSON.parse(Buffer.from(cursor, 'base64').toString('utf8'))` behaves —
`dec` ranges over every possible decoding function, so in particular over
node's lenient one — a token it does not take to a record with a truthy
string `field` and a present `value` is treated exactly as if no cursor
had been supplied: the whole rewrite result — statement, parameters,
cursor field — is identical to the cursorless call; nothing fails, no
predicate is appended, no parameter is added. -/
theorem C5_invalid_cursor_first_page (dec : String → Option Json)
    (ef : List Char → Option String) (sql : String) (cf : Option String)
    (ps : Nat) (params : Params) (dcf : String) (tok : String)
    (h : cursorApplies dec tok = false) :
    paginateQueryD dec ef sql cf ps (some tok) params dcf =
      paginateQueryD dec ef sql cf ps none params dcf := by
  unfold paginateQueryD
  by_cases ht : tok = ""
  · subst ht; simp
  · simp only [ne_eq, ht, not_false_eq_true, if_true,
      applyCursor_of_not_applies dec _ _ _ h]

/-- Claim C5 (witness): under the strict decode behaviour, the garbage
token `!` yields exactly the first-page rewrite. -/
theorem C5_invalid_cursor_first_page_witness :
    paginateQueryD decodeCursorJson (fun _ => none) "SELECT a FROM t"
        (some "id") 5 (some "!") [] "id" =
      paginateQueryD decodeCursorJson (fun _ => none) "SELECT a FROM t"
        (some "id") 5 none [] "id" :=
  C5_invalid_cursor_first_page decodeCursorJson (fun _ => none)
    "SELECT a FROM t" (some "id") 5 [] "id" "!" (by decide)

/-! ### Claim C10 — the caller's parameter object is never mutated -/

/-- Claim C10: on the object heap, `paginateQuery` leaves the caller's
`parameters` object untouched: the returned object is a fresh allocation
(a different address), holding the caller's bindings either unchanged or
extended/overwritten by the single cursor binding. -/
theorem C10_caller_params_frame (ef : List Char → Option String) (h : Heap)
    (pid : Nat) (sql : String) (cf : Option String) (ps : Nat)
    (cur : Option String) (dcf : String) (hpid : pid < h.length) :
    heapGet (paginateQueryH ef h pid sql cf ps cur dcf).1 pid = heapGet h pid ∧
    (paginateQueryH ef h pid sql cf ps cur dcf).2.1 ≠ pid ∧
    (heapGet (paginateQueryH ef h pid sql cf ps cur dcf).1
        (paginateQueryH ef h pid sql cf ps cur dcf).2.1 = heapGet h pid ∨
      ∃ k v, heapGet (paginateQueryH ef h pid sql cf ps cur dcf).1
          (paginateQueryH ef h pid sql cf ps cur dcf).2.1 =
        setObjKey (heapGet h pid) k v) := by
  unfold paginateQueryH
  dsimp only
  refine ⟨?_, by omega, ?_⟩
  · rw [heapGet_heapSet_ne _ _ _ _ (by omega), heapGet_append_lt _ _ _ hpid]
  · rw [heapGet_heapSet_self _ _ _ (by simp)]
    exact paginateQuery_params ef sql cf ps cur (heapGet h pid) dcf

/-- Claim C10 (witness): a one-object heap with a cursorless call. -/
theorem C10_caller_params_frame_witness :
    heapGet (paginateQueryH (fun _ => none) [[("a", Jval.jnum 1)]] 0
        "SELECT a FROM t" (some "id") 5 none "id").1 0 =
      heapGet [[("a", Jval.jnum 1)]] 0 ∧
    (paginateQueryH (fun _ => none) [[("a", Jval.jnum 1)]] 0 "SELECT a FROM t"
        (some "id") 5 none "id").2.1 ≠ 0 ∧
    (heapGet (paginateQueryH (fun _ => none) [[("a", Jval.jnum 1)]] 0
          "SELECT a FROM t" (some "id") 5 none "id").1
        (paginateQueryH (fun _ => none) [[("a", Jval.jnum 1)]] 0
          "SELECT a FROM t" (some "id") 5 none "id").2.1 =
        heapGet [[("a", Jval.jnum 1)]] 0 ∨
      ∃ k v, heapGet (paginateQueryH (fun _ => none) [[("a", Jval.jnum 1)]] 0
            "SELECT a FROM t" (some "id") 5 none "id").1
          (paginateQueryH (fun _ => none) [[("a", Jval.jnum 1)]] 0
            "SELECT a FROM t" (some "id") 5 none "id").2.1 =
        setObjKey (heapGet [[("a", Jval.jnum 1)]] 0) k v) :=
  C10_caller_params_frame (fun _ => none) [[("a", Jval.jnum 1)]] 0
    "SELECT a FROM t" (some "id") 5 none "id" (by decide)

end Mcp
